import Mathlib

/-!
Verification of the Task Dependency & Critical-Path Engine of the
SomaSolution todo application.

The definitions below are a shallow embedding of the TypeScript source:

* `buildDependencyGraph`, `topologicalSort`, `calculateTaskInsights` and their
  helpers embed the graph/schedule/critical-path code of
  `src/app/components/ReactFlowGraph.tsx` (lines 171-310).
* `checkCircularDependency`, `PUT` embed the dependency-edit endpoint of
  `src/unnamed/part_000` (the `/api/todos/[id]` route).
* `POST` embeds the task-creation endpoint of `src/app/api/todos/route.ts`.

Modelling conventions:
* JavaScript `Date` values are modelled as `Int` millisecond timestamps
  (`date.getTime()`); `new Date(0)` is `0`; `Math.max` is `max`.
* JavaScript `Map` objects that are only read through `get`/`set` are modelled
  as functions `Nat → Option α`; `map.get(k)` is application, `map.set(k, v)`
  is pointwise update (`fset`), and `map.get(k)?.push(v)` is `fpush`.
* `null`/`undefined` are `Option.none`; `Array.find` is `List.find?`.
* The Prisma row store consumed by the API routes is modelled as a
  `List Todo`; `prisma.todo.findUnique({where: {id}})` is `List.find?`.
* The `while` loops (Kahn queue, critical-path backtracking) and the
  recursive `checkCircularDependency` are embedded with an explicit fuel
  argument; the fuel supplied by the callers is large enough that the fuel
  never runs out on the executions the theorems below are about.
-/

/-- The fields of a related task row that the code actually reads from a
`dependsOn` entry: its id and (for completion-time estimates) its due date. -/
structure DepRef where
  id : Nat
  dueDate : Option Int
  deriving Repr, DecidableEq

/-- A task row (Prisma `Todo` with its `dependsOn` relation included), as read
by both the React client and the API routes. -/
structure Todo where
  id : Nat
  title : String
  createdAt : Int
  dueDate : Option Int
  dependsOn : List DepRef
  deriving Repr, DecidableEq

/-- Per-task insight produced by `calculateTaskInsights`. -/
structure Insight where
  earliestStart : Int
  isCritical : Bool
  deriving Repr, DecidableEq

/-- `map.set(k, v)` on a JavaScript `Map` modelled as a function. -/
def fset {α : Type} (m : Nat → Option α) (k : Nat) (v : α) : Nat → Option α :=
  fun q => if q = k then some v else m q

/-- `map.get(k)?.push(v)`: append `v` to the list stored at `k`, a no-op when
the key is absent (the optional-chaining semantics of the source). -/
def fpush (m : Nat → Option (List Nat)) (k : Nat) (v : Nat) : Nat → Option (List Nat) :=
  match m k with
  | none => m
  | some l => fset m k (l ++ v :: [])

/-- The JavaScript `Set` of node ids: insertion-order list without duplicates. -/
def addNode (ns : List Nat) (i : Nat) : List Nat :=
  if i ∈ ns then ns else ns ++ i :: []

/-- Result record of `buildDependencyGraph`. -/
structure BuiltGraph where
  graph : Nat → Option (List Nat)
  reverseGraph : Nat → Option (List Nat)
  nodes : List Nat

/-- First loop of `buildDependencyGraph`: register every todo id as a node and
initialise its (empty) adjacency entries. -/
def initGraphEntries (todos : List Todo) : Nat → Option (List Nat) :=
  todos.foldl (fun g t => if (g t.id).isSome then g else fset g t.id []) (fun _ => none)

/-- Second loop of `buildDependencyGraph`: for every todo and every dependency
whose id is a known node, push the edge into the forward and reverse maps.
Edges to unknown ids are silently skipped (`nodes.has(dep.id)` guard). -/
def addGraphEdges (todos : List Todo) (nodes : List Nat)
    (g r : Nat → Option (List Nat)) : (Nat → Option (List Nat)) × (Nat → Option (List Nat)) :=
  todos.foldl
    (fun p t =>
      t.dependsOn.foldl
        (fun p dep =>
          if dep.id ∈ nodes then (fpush p.1 t.id dep.id, fpush p.2 dep.id t.id) else p)
        p)
    (g, r)

/-- Embedding of `buildDependencyGraph` (ReactFlowGraph.tsx lines 171-195). -/
def buildDependencyGraph (todos : List Todo) : BuiltGraph :=
  let nodes := todos.foldl (fun ns t => addNode ns t.id) []
  let g0 := initGraphEntries todos
  let r0 := initGraphEntries todos
  let gr := addGraphEdges todos nodes g0 r0
  ⟨gr.1, gr.2, nodes⟩

/-- Result record of `topologicalSort`. -/
structure TopoResult where
  sortedOrder : List Nat
  hasCycle : Bool

/-- One pass of the in-degree/adjacency construction of `topologicalSort`
(lines 202-208): for each node `u` and each `v` in `graph.get(u)`, push `u`
onto `adj.get(v)` and increment `inDegree.get(u)`. -/
def topoPrepare (graph : Nat → Option (List Nat)) (nodes : List Nat)
    (adj : Nat → Option (List Nat)) (indeg : Nat → Option Int) :
    (Nat → Option (List Nat)) × (Nat → Option Int) :=
  nodes.foldl
    (fun p u =>
      ((graph u).getD []).foldl
        (fun p v => (fpush p.1 v u, fset p.2 u (((p.2 u).getD 0) + 1)))
        p)
    (adj, indeg)

/-- The inner `forEach` of the Kahn work-queue loop (lines 222-227):
decrement the in-degree of each neighbour `v` of the popped node, collecting
the neighbours whose in-degree reaches exactly 0 (they get enqueued). -/
def topoProcess (vs : List Nat) (indeg : Nat → Option Int) :
    (Nat → Option Int) × List Nat :=
  vs.foldl
    (fun (p : (Nat → Option Int) × List Nat) v =>
      if ((p.1 v).getD 0) - 1 = 0 then
        (fset p.1 v (((p.1 v).getD 0) - 1), p.2 ++ v :: [])
      else (fset p.1 v (((p.1 v).getD 0) - 1), p.2))
    (indeg, [])

/-- The Kahn work-queue `while` loop of `topologicalSort` (lines 218-228),
with fuel: pop the queue front, append it to the order, process its
neighbours and enqueue those whose in-degree reached 0. -/
def topoLoop (adj : Nat → Option (List Nat)) :
    Nat → List Nat → List Nat → (Nat → Option Int) → List Nat × (Nat → Option Int)
  | 0, _, order, indeg => (order, indeg)
  | _ + 1, [], order, indeg => (order, indeg)
  | fuel + 1, u :: queue, order, indeg =>
    topoLoop adj fuel (queue ++ (topoProcess ((adj u).getD []) indeg).2)
      (order ++ u :: []) (topoProcess ((adj u).getD []) indeg).1

/-- `new Map(nodes.map(node => [node, []]))` (line 200): empty adjacency
entry for every node. -/
def initialAdjacency (nodes : List Nat) : Nat → Option (List Nat) :=
  fun k => if k ∈ nodes then some [] else none

/-- `new Map(nodes.map(node => [node, 0]))` (line 199): zero in-degree for
every node. -/
def initialInDegrees (nodes : List Nat) : Nat → Option Int :=
  fun k => if k ∈ nodes then some 0 else none

/-- Fuel for the Kahn work-queue loop: strictly more than the number of loop
iterations of any run reasoned about below (the loop pops at most one node
per emitted-order entry). -/
def topoFuel (nodes : List Nat) : Nat :=
  nodes.length * nodes.length + nodes.length + 1

/-- Embedding of `topologicalSort` (ReactFlowGraph.tsx lines 198-232).
Kahn's algorithm; the caller passes `reverseGraph` as `graph`. -/
def topologicalSort (graph : Nat → Option (List Nat)) (nodes : List Nat) : TopoResult :=
  let p := topoPrepare graph nodes (initialAdjacency nodes) (initialInDegrees nodes)
  let queue0 := nodes.filter (fun n => p.2 n == some 0)
  let r := topoLoop p.1 (topoFuel nodes) queue0 [] p.2
  ⟨r.1, r.1.length != nodes.length⟩

/-- The topological sort as invoked by `calculateTaskInsights` (line 237):
note the source passes the **reverse** graph, so the emitted order lists
dependents before their dependencies. -/
def topoOf (todos : List Todo) : TopoResult :=
  topologicalSort (buildDependencyGraph todos).reverseGraph (buildDependencyGraph todos).nodes

/-- Initialisation of the insights map (line 248): every todo starts at its
creation timestamp, non-critical. -/
def initialInsights (todos : List Todo) : Nat → Option Insight :=
  todos.foldl (fun m t => fset m t.id ⟨t.createdAt, false⟩) (fun _ => none)

/-- The cycle branch of `calculateTaskInsights` (lines 241-244): every todo is
assigned `new Date(0)` and `isCritical: false`; no cycle members are reported. -/
def cycleInsights (todos : List Todo) : Nat → Option Insight :=
  todos.foldl (fun m t => fset m t.id ⟨0, false⟩) (fun _ => none)

/-- The `maxPredecessorCompletion` computation of the earliest-start loop
(lines 255-269): starting from the task's creation timestamp, take the
maximum over its direct dependencies of the dependency's due date if set,
else the dependency's currently stored earliest start. -/
def maxPredecessorCompletion (todos : List Todo) (m : Nat → Option Insight)
    (deps : List Nat) (createdAt : Int) : Int :=
  deps.foldl
    (fun acc depId =>
      match m depId with
      | none => acc
      | some depInsight =>
        match todos.find? (fun t => t.id == depId) with
        | some dep =>
          match dep.dueDate with
          | some dd => max acc dd
          | none => max acc depInsight.earliestStart
        | none => max acc depInsight.earliestStart)
    createdAt

/-- One iteration of the earliest-start loop (lines 251-271) for a single id
of the sorted order. -/
def scheduleStep (todos : List Todo) (graph : Nat → Option (List Nat))
    (m : Nat → Option Insight) (todoId : Nat) : Nat → Option Insight :=
  match todos.find? (fun t => t.id == todoId) with
  | none => m
  | some todo =>
    match m todoId with
    | none => m
    | some cur =>
      fset m todoId
        ⟨max cur.earliestStart
            (maxPredecessorCompletion todos m ((graph todoId).getD []) todo.createdAt),
          cur.isCritical⟩

/-- The earliest-start map after walking the emitted order (lines 247-271). -/
def scheduleInsights (todos : List Todo) : Nat → Option Insight :=
  (topoOf todos).sortedOrder.foldl
    (scheduleStep todos (buildDependencyGraph todos).graph)
    (initialInsights todos)

/-- One step of the terminal-task scan (lines 277-283): replace the running
maximum when the task's earliest start strictly exceeds it. -/
def selectStep (todos : List Todo) (m : Nat → Option Insight)
    (acc : Int × Option Todo) (todoId : Nat) : Int × Option Todo :=
  match m todoId with
  | none => acc
  | some i =>
    if acc.1 < i.earliestStart then (i.earliestStart, todos.find? (fun t => t.id == todoId))
    else acc

/-- Terminal-task selection (lines 274-283): scan the sorted order, keeping
the first task whose earliest start strictly exceeds the running maximum
(initially 0). -/
def selectTerminal (todos : List Todo) (m : Nat → Option Insight)
    (order : List Nat) : Int × Option Todo :=
  order.foldl (selectStep todos m) (0, none)

/-- Effective completion time of a dependency during backtracking (line 298):
its due date if set, else its computed earliest start (0 if the id has no
insight; the source would throw there, which the theorems exclude). -/
def effectiveCompletion (m : Nat → Option Insight) (dep : DepRef) : Int :=
  match dep.dueDate with
  | some dd => dd
  | none =>
    match m dep.id with
    | some di => di.earliestStart
    | none => 0

/-- Next-dependency selection of the backtracking loop (lines 293-304):
running maximum starting at -1, updated on `>=`, so the **last** dependency
attaining the maximum wins. -/
def selectNextDep (m : Nat → Option Insight) (deps : List DepRef) : Int × Option Nat :=
  deps.foldl
    (fun acc dep =>
      if acc.1 ≤ effectiveCompletion m dep then (effectiveCompletion m dep, some dep.id)
      else acc)
    (-1, none)

/-- `insights.get(current)!.isCritical = true` (line 289). -/
def markCritical (m : Nat → Option Insight) (i : Nat) : Nat → Option Insight :=
  match m i with
  | some v => fset m i ⟨v.earliestStart, true⟩
  | none => m

/-- The backtracking `while` loop of the critical-path marking
(lines 286-307), with fuel. -/
def backtrackMark (todos : List Todo) :
    Nat → (Nat → Option Insight) → Nat → Nat → Option Insight
  | 0, m, _ => m
  | fuel + 1, m, current =>
    match todos.find? (fun t => t.id == current) with
    | none => markCritical m current
    | some currentTodo =>
      if currentTodo.dependsOn.isEmpty then markCritical m current
      else
        match (selectNextDep (markCritical m current) currentTodo.dependsOn).2 with
        | none => markCritical m current
        | some nxt => backtrackMark todos fuel (markCritical m current) nxt

/-- The list of task ids visited by `backtrackMark`, in visiting order: the
same recursion, returning the visited ids instead of the updated map. -/
def criticalChain (todos : List Todo) :
    Nat → (Nat → Option Insight) → Nat → List Nat
  | 0, _, _ => []
  | fuel + 1, m, current =>
    match todos.find? (fun t => t.id == current) with
    | none => current :: []
    | some currentTodo =>
      if currentTodo.dependsOn.isEmpty then current :: []
      else
        match (selectNextDep (markCritical m current) currentTodo.dependsOn).2 with
        | none => current :: []
        | some nxt => current :: criticalChain todos fuel (markCritical m current) nxt

/-- Embedding of `calculateTaskInsights` (ReactFlowGraph.tsx lines 235-310),
assembled from the components above exactly as in the source. -/
def calculateTaskInsights (todos : List Todo) : (Nat → Option Insight) × Bool :=
  if (topoOf todos).hasCycle then (cycleInsights todos, true)
  else
    let ins1 := scheduleInsights todos
    match (selectTerminal todos ins1 (topoOf todos).sortedOrder).2 with
    | none => (ins1, false)
    | some lastTask => (backtrackMark todos (todos.length + 1) ins1 lastTask.id, false)

/-- Earliest start stored for an id (0 when absent); reading accessor used
only in theorem statements. -/
def esOf (m : Nat → Option Insight) (i : Nat) : Int :=
  match m i with
  | some v => v.earliestStart
  | none => 0

/-- Criticality flag stored for an id (false when absent); reading accessor
used only in theorem statements. -/
def critOf (m : Nat → Option Insight) (i : Nat) : Bool :=
  match m i with
  | some v => v.isCritical
  | none => false

/-! ## Server-side API routes -/

/-- The ids a task depends on according to the stored snapshot: the
`dependsOn` relation of the first row with the given id (empty when absent),
matching `prisma.todo.findUnique({where:{id}, include:{dependsOn:true}})`. -/
def depIds (store : List Todo) (a : Nat) : List Nat :=
  match store.find? (fun t => t.id == a) with
  | some t => t.dependsOn.map (fun d => d.id)
  | none => []

/-- Reachability along depends-on edges of the stored snapshot.
`Reach store a b` holds when `b` can be reached from `a` by repeatedly
following `dependsOn` edges (zero or more steps). -/
inductive Reach (store : List Todo) : Nat → Nat → Prop
  | refl (a : Nat) : Reach store a a
  | step {a b c : Nat} (hb : b ∈ depIds store a) (h : Reach store b c) : Reach store a c

/-- Embedding of the recursive `checkCircularDependency` helper of the PUT
route (src/unnamed/part_000 lines 15-42). The shared mutable `visited` set is
threaded explicitly; the Boolean tells whether `todoId` was reached from
`dependencyId`. The inner fold embeds the `for (const dep of
dependency.dependsOn)` loop, which stops at the first dependency that reaches
`todoId`. The fuel bounds the recursion depth; every non-trivial level adds a
fresh id to `visited`, so the fuel passed by `PUT` never runs out. -/
def checkCircularDependency (store : List Todo) (todoId : Nat) :
    Nat → Nat → List Nat → Bool × List Nat
  | 0, _, visited => (false, visited)
  | fuel + 1, dependencyId, visited =>
    if dependencyId ∈ visited then (false, visited)
    else if todoId = dependencyId then (true, visited ++ dependencyId :: [])
    else
      match store.find? (fun t => t.id == dependencyId) with
      | none => (false, visited ++ dependencyId :: [])
      | some dependency =>
        dependency.dependsOn.foldl
          (fun r dep =>
            if r.1 then r else checkCircularDependency store todoId fuel dep.id r.2)
          (false, visited ++ dependencyId :: [])

/-- Fuel supplied to `checkCircularDependency` by the PUT route embedding:
one more than the number of ids occurring anywhere in the store, which bounds
the recursion depth (each level adds a fresh id to the visited set). -/
def checkFuel (store : List Todo) : Nat :=
  store.length + (store.map (fun t => t.dependsOn.length)).sum + 2

/-- Responses of the PUT `/api/todos/[id]` route that the embedding
distinguishes (status 400 self-dependency, 400 circular dependency carrying
the offending proposed id, 200 success, 500 server error). -/
inductive PutResult where
  | selfDependencyError
  | circularError (depId : Nat)
  | updated
  | serverError
  deriving Repr, DecidableEq

/-- The validation loop of the PUT route (lines 53-69): for each proposed
dependency id in order, first the self-dependency check, then the circular
check with a fresh visited set; the first violation aborts the request. -/
def runDependencyChecks (store : List Todo) (todoId : Nat) :
    List Nat → Option PutResult
  | [] => none
  | d :: rest =>
    if todoId = d then some PutResult.selfDependencyError
    else if (checkCircularDependency store todoId (checkFuel store) d []).1 then
      some (PutResult.circularError d)
    else runDependencyChecks store todoId rest

/-- `prisma.todo.update({data:{dependsOn:{set: ids}}})`: replace the stored
task's whole dependency set; each new `DepRef` carries the due date of the
target row. -/
def setDependencies (store : List Todo) (todoId : Nat) (ids : List Nat) : List Todo :=
  store.map (fun t =>
    if t.id = todoId then
      { t with dependsOn := ids.map (fun d => ⟨d, (store.find? (fun u => u.id == d)).bind (fun u => u.dueDate)⟩) }
    else t)

/-- Embedding of the PUT handler (src/unnamed/part_000 lines 44-88): run the
validation loop; on a violation respond with the error and leave the store
untouched; otherwise perform the atomic update (which Prisma rejects with a
generic 500 — store unchanged — when the task or a connected id is absent). -/
def PUT (store : List Todo) (todoId : Nat) (dependsOnIds : List Nat) :
    PutResult × List Todo :=
  match runDependencyChecks store todoId dependsOnIds with
  | some err => (err, store)
  | none =>
    if (store.find? (fun t => t.id == todoId)).isSome
        && dependsOnIds.all (fun d => (store.find? (fun u => u.id == d)).isSome) then
      (PutResult.updated, setDependencies store todoId dependsOnIds)
    else (PutResult.serverError, store)

/-- The `!title || title.trim() === ''` guard of the POST route: the title is
missing, empty or whitespace-only. (`trim` removes leading and trailing
whitespace, so for a title it equals the empty string exactly when every
character is whitespace.) -/
def blankTitle (title : String) : Bool :=
  title.data.all Char.isWhitespace

/-- Responses of the POST `/api/todos` route that the embedding distinguishes
(status 400 missing title, 201 created, 500 generic creation error). -/
inductive PostResult where
  | titleRequired
  | created (todo : Todo)
  | createError
  deriving Repr, DecidableEq

/-- Embedding of the POST handler (src/app/api/todos/route.ts lines 55-102).
No dependency validation is performed (the source comments "Defer circular
dependency check for POST"); the listed ids are connected directly. Prisma's
`connect` throws on an absent id, caught as the generic 500 creation error;
`newId`/`createdAt` stand for the store-generated key and timestamp. The
external image lookup only fills an opaque field and is omitted. -/
def POST (store : List Todo) (title : String) (dueDate : Option Int)
    (dependsOnIds : List Nat) (newId : Nat) (createdAt : Int) :
    PostResult × List Todo :=
  if blankTitle title then (PostResult.titleRequired, store)
  else if dependsOnIds.all (fun d => (store.find? (fun u => u.id == d)).isSome) then
    let todo : Todo :=
      ⟨newId, title, createdAt, dueDate,
        dependsOnIds.map (fun d => ⟨d, (store.find? (fun u => u.id == d)).bind (fun u => u.dueDate)⟩)⟩
    (PostResult.created todo, store ++ todo :: [])
  else (PostResult.createError, store)

/-! ## Lemmas about the map embedding -/

theorem fset_self {α : Type} (m : Nat → Option α) (k : Nat) (v : α) :
    fset m k v k = some v := by
  simp [fset]

theorem fset_ne {α : Type} (m : Nat → Option α) (k q : Nat) (v : α) (h : q ≠ k) :
    fset m k v q = m q := by
  simp [fset, h]

theorem fpush_ne (m : Nat → Option (List Nat)) (k q v : Nat) (h : q ≠ k) :
    fpush m k v q = m q := by
  unfold fpush
  cases hm : m k with
  | none => rfl
  | some l => simp [fset, h]

theorem fpush_self (m : Nat → Option (List Nat)) (k v : Nat) (l : List Nat)
    (h : m k = some l) : fpush m k v k = some (l ++ v :: []) := by
  simp [fpush, h, fset_self]

theorem fpush_isSome (m : Nat → Option (List Nat)) (k v q : Nat) :
    (fpush m k v q).isSome = (m q).isSome := by
  unfold fpush
  cases hm : m k with
  | none => rfl
  | some l =>
    by_cases hq : q = k
    · subst hq; simp [fset_self, hm]
    · simp [fset_ne _ _ _ _ hq]

/-! ## Lemmas about the insight initialisation folds -/

theorem foldl_fset_const_lookup (v : Insight) :
    ∀ (l : List Todo) (m : Nat → Option Insight) (k : Nat),
      (l.foldl (fun m t => fset m t.id v) m) k =
        if k ∈ l.map (fun t => t.id) then some v else m k := by
  intro l
  induction l with
  | nil => intro m k; simp
  | cons h rest ih =>
    intro m k
    by_cases hk : k ∈ rest.map (fun t => t.id)
    · simp [List.foldl_cons, ih, hk]
    · by_cases hk2 : k = h.id
      · subst hk2
        simp [List.foldl_cons, ih, hk, fset_self]
      · simp [List.foldl_cons, ih, hk, hk2, fset_ne _ _ _ _ hk2]

theorem cycleInsights_lookup (todos : List Todo) (t : Todo) (ht : t ∈ todos) :
    cycleInsights todos t.id = some ⟨0, false⟩ := by
  unfold cycleInsights
  rw [foldl_fset_const_lookup]
  have : t.id ∈ todos.map (fun t => t.id) := List.mem_map_of_mem _ ht
  simp [this]

theorem foldl_fset_untouched (f : Todo → Insight) :
    ∀ (l : List Todo) (m : Nat → Option Insight) (k : Nat),
      k ∉ l.map (fun t => t.id) →
      (l.foldl (fun m t => fset m t.id (f t)) m) k = m k := by
  intro l
  induction l with
  | nil => intro m k _; rfl
  | cons h rest ih =>
    intro m k hk
    simp only [List.map_cons, List.mem_cons] at hk
    push_neg at hk
    simp only [List.foldl_cons]
    rw [ih _ _ hk.2, fset_ne _ _ _ _ hk.1]

theorem foldl_fset_lookup_nodup (f : Todo → Insight) :
    ∀ (l : List Todo) (m : Nat → Option Insight) (t : Todo),
      (l.map (fun t => t.id)).Nodup → t ∈ l →
      (l.foldl (fun m t => fset m t.id (f t)) m) t.id = some (f t) := by
  intro l
  induction l with
  | nil => intro m t _ ht; cases ht
  | cons h rest ih =>
    intro m t hnd ht
    simp only [List.map_cons, List.nodup_cons] at hnd
    rcases List.mem_cons.mp ht with rfl | ht'
    · simp only [List.foldl_cons]
      rw [foldl_fset_untouched _ _ _ _ hnd.1, fset_self]
    · simp only [List.foldl_cons]
      exact ih _ _ hnd.2 ht'

theorem initialInsights_lookup (todos : List Todo) (t : Todo)
    (hnd : (todos.map (fun t => t.id)).Nodup) (ht : t ∈ todos) :
    initialInsights todos t.id = some ⟨t.createdAt, false⟩ :=
  foldl_fset_lookup_nodup (fun t => ⟨t.createdAt, false⟩) todos _ t hnd ht

/-! ## Lemmas about the earliest-start fold -/

theorem scheduleStep_char (todos : List Todo) (graph : Nat → Option (List Nat))
    (m : Nat → Option Insight) (todoId : Nat) :
    scheduleStep todos graph m todoId =
      match todos.find? (fun t => t.id == todoId), m todoId with
      | some todo, some cur =>
        fset m todoId
          ⟨max cur.earliestStart
              (maxPredecessorCompletion todos m ((graph todoId).getD []) todo.createdAt),
            cur.isCritical⟩
      | _, _ => m := by
  unfold scheduleStep
  cases todos.find? (fun t => t.id == todoId) <;> cases m todoId <;> rfl

theorem scheduleStep_inv (todos : List Todo) (graph : Nat → Option (List Nat))
    (m : Nat → Option Insight) (todoId : Nat)
    (hm : ∀ t ∈ todos, ∃ v, m t.id = some v ∧ v.isCritical = false ∧ t.createdAt ≤ v.earliestStart) :
    ∀ t ∈ todos, ∃ v, (scheduleStep todos graph m todoId) t.id = some v ∧
      v.isCritical = false ∧ t.createdAt ≤ v.earliestStart := by
  intro t ht
  rcases hm t ht with ⟨v, hv, hc, he⟩
  rw [scheduleStep_char]
  cases hfind : todos.find? (fun t => t.id == todoId) with
  | none => exact ⟨v, hv, hc, he⟩
  | some todo =>
    cases hcur : m todoId with
    | none => exact ⟨v, hv, hc, he⟩
    | some cur =>
      by_cases hid : t.id = todoId
      · subst hid
        rw [hv] at hcur
        cases hcur
        exact ⟨_, fset_self _ _ _, hc, le_trans he (le_max_left _ _)⟩
      · exact ⟨v, (fset_ne _ _ _ _ hid).trans hv, hc, he⟩

theorem scheduleFold_inv (todos : List Todo) (graph : Nat → Option (List Nat)) :
    ∀ (order : List Nat) (m : Nat → Option Insight),
      (∀ t ∈ todos, ∃ v, m t.id = some v ∧ v.isCritical = false ∧ t.createdAt ≤ v.earliestStart) →
      ∀ t ∈ todos, ∃ v, (order.foldl (scheduleStep todos graph) m) t.id = some v ∧
        v.isCritical = false ∧ t.createdAt ≤ v.earliestStart := by
  intro order
  induction order with
  | nil => intro m hm; exact hm
  | cons o rest ih =>
    intro m hm
    exact ih _ (scheduleStep_inv todos graph m o hm)

theorem scheduleInsights_inv (todos : List Todo)
    (hnd : (todos.map (fun t => t.id)).Nodup) :
    ∀ t ∈ todos, ∃ v, scheduleInsights todos t.id = some v ∧
      v.isCritical = false ∧ t.createdAt ≤ v.earliestStart := by
  unfold scheduleInsights
  refine scheduleFold_inv todos _ _ _ ?_
  intro t ht
  exact ⟨_, initialInsights_lookup todos t hnd ht, rfl, le_refl _⟩

/-! ## Lemmas about the graph builder -/

theorem buildDependencyGraph_eq (todos : List Todo) :
    buildDependencyGraph todos =
      ⟨(addGraphEdges todos (todos.foldl (fun ns t => addNode ns t.id) [])
          (initGraphEntries todos) (initGraphEntries todos)).1,
        (addGraphEdges todos (todos.foldl (fun ns t => addNode ns t.id) [])
          (initGraphEntries todos) (initGraphEntries todos)).2,
        todos.foldl (fun ns t => addNode ns t.id) []⟩ := rfl

theorem mem_addNode (ns : List Nat) (i j : Nat) :
    i ∈ addNode ns j ↔ i ∈ ns ∨ i = j := by
  unfold addNode
  by_cases h : j ∈ ns
  · simp only [h, if_true]
    constructor
    · exact Or.inl
    · rintro (hi | rfl)
      · exact hi
      · exact h
  · simp [h]

theorem addNode_nodup (ns : List Nat) (j : Nat) (h : ns.Nodup) : (addNode ns j).Nodup := by
  unfold addNode
  by_cases hj : j ∈ ns
  · simpa [hj]
  · simp [hj, List.nodup_append, h]

theorem mem_nodesFold (l : List Todo) :
    ∀ (ns : List Nat) (i : Nat),
      i ∈ l.foldl (fun ns t => addNode ns t.id) ns ↔ i ∈ ns ∨ i ∈ l.map (fun t => t.id) := by
  induction l with
  | nil => intro ns i; simp
  | cons h rest ih =>
    intro ns i
    rw [List.foldl_cons, ih, mem_addNode]
    simp only [List.map_cons, List.mem_cons]
    tauto

theorem nodesFold_nodup (l : List Todo) :
    ∀ ns : List Nat, ns.Nodup → (l.foldl (fun ns t => addNode ns t.id) ns).Nodup := by
  induction l with
  | nil => intro ns h; exact h
  | cons h rest ih =>
    intro ns hns
    exact ih _ (addNode_nodup ns h.id hns)

theorem mem_buildNodes (todos : List Todo) (k : Nat) :
    k ∈ (buildDependencyGraph todos).nodes ↔ k ∈ todos.map (fun t => t.id) := by
  rw [buildDependencyGraph_eq]
  simpa using mem_nodesFold todos [] k

theorem buildNodes_nodup (todos : List Todo) : (buildDependencyGraph todos).nodes.Nodup := by
  rw [buildDependencyGraph_eq]
  exact nodesFold_nodup todos [] List.nodup_nil

theorem nodesFold_eq_of_nodup (l : List Todo) :
    ∀ ns : List Nat, (l.map (fun t => t.id)).Nodup →
      (∀ i ∈ l.map (fun t => t.id), i ∉ ns) →
      l.foldl (fun ns t => addNode ns t.id) ns = ns ++ l.map (fun t => t.id) := by
  induction l with
  | nil => intro ns _ _; simp
  | cons h rest ih =>
    intro ns hnd hdis
    simp only [List.map_cons, List.nodup_cons] at hnd
    have hh : h.id ∉ ns := hdis h.id (by simp)
    rw [List.foldl_cons]
    have : addNode ns h.id = ns ++ h.id :: [] := by simp [addNode, hh]
    rw [this, ih _ hnd.2 ?_]
    · simp
    · intro i hi
      simp only [List.mem_append, List.mem_singleton]
      rintro (hins | rfl)
      · exact hdis i (by simp [hi]) hins
      · exact hnd.1 hi

theorem buildNodes_eq_of_nodup (todos : List Todo)
    (hnd : (todos.map (fun t => t.id)).Nodup) :
    (buildDependencyGraph todos).nodes = todos.map (fun t => t.id) := by
  rw [buildDependencyGraph_eq]
  simpa using nodesFold_eq_of_nodup todos [] hnd (by simp)

theorem initGraphEntries_go (l : List Todo) :
    ∀ (m : Nat → Option (List Nat)) (k : Nat),
      (l.foldl (fun g t => if (g t.id).isSome then g else fset g t.id []) m) k =
        if (m k).isSome then m k
        else if k ∈ l.map (fun t => t.id) then some [] else none := by
  induction l with
  | nil =>
    intro m k
    cases h : m k <;> simp [h]
  | cons h rest ih =>
    intro m k
    rw [List.foldl_cons]
    by_cases hh : (m h.id).isSome
    · rw [if_pos hh, ih]
      by_cases hk : k = h.id
      · rw [hk]
        simp [hh]
      · simp [List.map_cons, List.mem_cons, hk]
    · rw [if_neg hh, ih]
      by_cases hk : k = h.id
      · rw [hk, fset_self]
        simp [hh]
      · rw [fset_ne _ _ _ _ hk]
        simp [List.map_cons, List.mem_cons, hk]

theorem initGraphEntries_lookup (todos : List Todo) (k : Nat) :
    initGraphEntries todos k =
      if k ∈ todos.map (fun t => t.id) then some [] else none := by
  unfold initGraphEntries
  rw [initGraphEntries_go]
  simp

theorem addEdgesInner_fst_ne (nodes : List Nat) (t : Todo) :
    ∀ (ds : List DepRef) (p : (Nat → Option (List Nat)) × (Nat → Option (List Nat))) (k : Nat),
      k ≠ t.id →
      (ds.foldl
        (fun p dep =>
          if dep.id ∈ nodes then (fpush p.1 t.id dep.id, fpush p.2 dep.id t.id) else p)
        p).1 k = p.1 k := by
  intro ds
  induction ds with
  | nil => intro p k _; rfl
  | cons dep rest ih =>
    intro p k hk
    rw [List.foldl_cons]
    by_cases hd : dep.id ∈ nodes
    · rw [if_pos hd, ih _ _ hk]
      exact fpush_ne _ _ _ _ hk
    · rw [if_neg hd]
      exact ih _ _ hk

theorem addEdgesInner_fst_self (nodes : List Nat) (t : Todo) :
    ∀ (ds : List DepRef) (p : (Nat → Option (List Nat)) × (Nat → Option (List Nat)))
      (l : List Nat),
      p.1 t.id = some l →
      (ds.foldl
        (fun p dep =>
          if dep.id ∈ nodes then (fpush p.1 t.id dep.id, fpush p.2 dep.id t.id) else p)
        p).1 t.id =
        some (l ++ (ds.map (fun d => d.id)).filter (fun d => decide (d ∈ nodes))) := by
  intro ds
  induction ds with
  | nil => intro p l h; simpa using h
  | cons dep rest ih =>
    intro p l h
    rw [List.foldl_cons]
    by_cases hd : dep.id ∈ nodes
    · rw [if_pos hd]
      have h1 : (fpush p.1 t.id dep.id, fpush p.2 dep.id t.id).1 t.id
          = some (l ++ dep.id :: []) := fpush_self _ _ _ _ h
      rw [ih _ _ h1]
      simp [hd]
    · rw [if_neg hd]
      rw [ih _ _ h]
      simp [hd]

theorem addGraphEdges_fst_ne (nodes : List Nat) :
    ∀ (todos : List Todo) (g r : Nat → Option (List Nat)) (k : Nat),
      k ∉ todos.map (fun t => t.id) →
      (addGraphEdges todos nodes g r).1 k = g k := by
  intro todos
  induction todos with
  | nil => intro g r k _; rfl
  | cons h rest ih =>
    intro g r k hk
    simp only [List.map_cons, List.mem_cons] at hk
    push_neg at hk
    unfold addGraphEdges
    rw [List.foldl_cons]
    have step :
        (rest.foldl
          (fun p t =>
            t.dependsOn.foldl
              (fun p dep =>
                if dep.id ∈ nodes then (fpush p.1 t.id dep.id, fpush p.2 dep.id t.id) else p)
              p)
          (h.dependsOn.foldl
            (fun p dep =>
              if dep.id ∈ nodes then (fpush p.1 h.id dep.id, fpush p.2 dep.id h.id) else p)
            (g, r))).1 k =
        (h.dependsOn.foldl
          (fun p dep =>
            if dep.id ∈ nodes then (fpush p.1 h.id dep.id, fpush p.2 dep.id h.id) else p)
          (g, r)).1 k := ih _ _ _ hk.2
    rw [step]
    exact addEdgesInner_fst_ne nodes h _ _ _ hk.1

theorem addGraphEdges_fst_lookup (nodes : List Nat) :
    ∀ (todos : List Todo) (g r : Nat → Option (List Nat)) (t : Todo) (l : List Nat),
      (todos.map (fun t => t.id)).Nodup → t ∈ todos → g t.id = some l →
      (addGraphEdges todos nodes g r).1 t.id =
        some (l ++ (t.dependsOn.map (fun d => d.id)).filter (fun d => decide (d ∈ nodes))) := by
  intro todos
  induction todos with
  | nil => intro g r t l _ ht; cases ht
  | cons h rest ih =>
    intro g r t l hnd ht hg
    simp only [List.map_cons, List.nodup_cons] at hnd
    unfold addGraphEdges
    rw [List.foldl_cons]
    rcases List.mem_cons.mp ht with rfl | ht'
    · have huntouched :
          (rest.foldl
            (fun p t =>
              t.dependsOn.foldl
                (fun p dep =>
                  if dep.id ∈ nodes then (fpush p.1 t.id dep.id, fpush p.2 dep.id t.id) else p)
                p)
            (t.dependsOn.foldl
              (fun p dep =>
                if dep.id ∈ nodes then (fpush p.1 t.id dep.id, fpush p.2 dep.id t.id) else p)
              (g, r))).1 t.id =
          (t.dependsOn.foldl
            (fun p dep =>
              if dep.id ∈ nodes then (fpush p.1 t.id dep.id, fpush p.2 dep.id t.id) else p)
            (g, r)).1 t.id := addGraphEdges_fst_ne nodes rest _ _ _ hnd.1
      rw [huntouched]
      exact addEdgesInner_fst_self nodes t _ _ _ hg
    · have hne : t.id ≠ h.id := by
        intro hEq
        exact hnd.1 (hEq ▸ List.mem_map_of_mem (fun t => t.id) ht')
      have hinner :
          (h.dependsOn.foldl
            (fun p dep =>
              if dep.id ∈ nodes then (fpush p.1 h.id dep.id, fpush p.2 dep.id h.id) else p)
            (g, r)).1 t.id = some l := by
        rw [addEdgesInner_fst_ne nodes h _ _ _ hne]
        exact hg
      exact ih _ _ _ _ hnd.2 ht' hinner

theorem buildGraph_lookup (todos : List Todo)
    (hnd : (todos.map (fun t => t.id)).Nodup) (t : Todo) (ht : t ∈ todos) :
    (buildDependencyGraph todos).graph t.id =
      some ((t.dependsOn.map (fun d => d.id)).filter
        (fun d => decide (d ∈ (buildDependencyGraph todos).nodes))) := by
  have hg0 : initGraphEntries todos t.id = some [] := by
    rw [initGraphEntries_lookup]
    simp [List.mem_map_of_mem (fun t => t.id) ht]
  have := addGraphEdges_fst_lookup ((buildDependencyGraph todos).nodes) todos
    (initGraphEntries todos) (initGraphEntries todos) t [] hnd ht hg0
  rw [buildDependencyGraph_eq]
  simpa using this

/-! ## Lemmas about the topological sort -/

theorem topologicalSort_eq (graph : Nat → Option (List Nat)) (nodes : List Nat) :
    topologicalSort graph nodes =
      ⟨(topoLoop (topoPrepare graph nodes (initialAdjacency nodes) (initialInDegrees nodes)).1
          (topoFuel nodes)
          (nodes.filter (fun n =>
            (topoPrepare graph nodes (initialAdjacency nodes) (initialInDegrees nodes)).2 n
              == some 0))
          [] (topoPrepare graph nodes (initialAdjacency nodes) (initialInDegrees nodes)).2).1,
        (topoLoop (topoPrepare graph nodes (initialAdjacency nodes) (initialInDegrees nodes)).1
          (topoFuel nodes)
          (nodes.filter (fun n =>
            (topoPrepare graph nodes (initialAdjacency nodes) (initialInDegrees nodes)).2 n
              == some 0))
          [] (topoPrepare graph nodes (initialAdjacency nodes) (initialInDegrees nodes)).2).1.length
          != nodes.length⟩ := rfl

theorem topologicalSort_hasCycle_iff (graph : Nat → Option (List Nat)) (nodes : List Nat) :
    (topologicalSort graph nodes).hasCycle = false ↔
      (topologicalSort graph nodes).sortedOrder.length = nodes.length := by
  rw [topologicalSort_eq]
  simp

theorem topoPrepare_no_edges (graph : Nat → Option (List Nat))
    (hg : ∀ u, (graph u).getD [] = []) (nodes : List Nat)
    (adj : Nat → Option (List Nat)) (indeg : Nat → Option Int) :
    topoPrepare graph nodes adj indeg = (adj, indeg) := by
  unfold topoPrepare
  induction nodes with
  | nil => rfl
  | cons u rest ih =>
    rw [List.foldl_cons, hg u, List.foldl_nil]
    exact ih

theorem topoLoop_no_edges (adj : Nat → Option (List Nat))
    (hadj : ∀ u, (adj u).getD [] = []) :
    ∀ (queue : List Nat) (fuel : Nat) (order : List Nat) (indeg : Nat → Option Int),
      queue.length ≤ fuel →
      (topoLoop adj fuel queue order indeg).1 = order ++ queue := by
  intro queue
  induction queue with
  | nil =>
    intro fuel order indeg _
    cases fuel <;> simp [topoLoop]
  | cons u rest ih =>
    intro fuel order indeg hfuel
    cases fuel with
    | zero => simp at hfuel
    | succ f =>
      rw [topoLoop, hadj u]
      have hproc : topoProcess [] indeg = (indeg, []) := rfl
      rw [hproc]
      rw [List.append_nil]
      rw [ih f (order ++ u :: []) indeg (by simp at hfuel; omega)]
      simp

theorem topologicalSort_no_edges (graph : Nat → Option (List Nat)) (nodes : List Nat)
    (hg : ∀ u, (graph u).getD [] = []) :
    topologicalSort graph nodes = ⟨nodes, false⟩ := by
  rw [topologicalSort_eq]
  rw [topoPrepare_no_edges graph hg nodes _ _]
  have hfilter : nodes.filter (fun n => initialInDegrees nodes n == some 0) = nodes := by
    apply List.filter_eq_self.mpr
    intro n hn
    simp [initialInDegrees, hn]
  have hadj0 : ∀ u, (initialAdjacency nodes u).getD [] = [] := by
    intro u
    unfold initialAdjacency
    by_cases hu : u ∈ nodes <;> simp [hu]
  have hloop := topoLoop_no_edges (initialAdjacency nodes) hadj0 nodes (topoFuel nodes) []
    (initialInDegrees nodes) ?_
  · rw [hfilter, hloop]
    simp
  · unfold topoFuel
    nlinarith [Nat.zero_le nodes.length]

theorem nodup_subset_length_le (l l' : List Nat) (hn : l.Nodup) (hs : l ⊆ l') :
    l.length ≤ l'.length := by
  have h1 : l.toFinset.card = l.length := List.toFinset_card_of_nodup hn
  have h2 : l.toFinset ⊆ l'.toFinset := by
    intro x hx
    simp only [List.mem_toFinset] at hx ⊢
    exact hs hx
  have h4 := Finset.card_le_card h2
  have h3 : l'.toFinset.card ≤ l'.length := l'.toFinset_card_le
  omega

theorem mem_of_nodup_subset_length_eq (l l' : List Nat) (hn : l.Nodup) (hn' : l'.Nodup)
    (hs : l ⊆ l') (hlen : l.length = l'.length) : ∀ x ∈ l', x ∈ l := by
  have h2 : l.toFinset ⊆ l'.toFinset := by
    intro x hx
    simp only [List.mem_toFinset] at hx ⊢
    exact hs hx
  have heq : l.toFinset = l'.toFinset := by
    apply Finset.eq_of_subset_of_card_le h2
    rw [List.toFinset_card_of_nodup hn, List.toFinset_card_of_nodup hn', hlen]
  intro x hx
  have hx2 : x ∈ l'.toFinset := List.mem_toFinset.mpr hx
  rw [← heq] at hx2
  exact List.mem_toFinset.mp hx2

theorem fpush_lookup (m : Nat → Option (List Nat)) (k v q : Nat) :
    fpush m k v q = if q = k then (m k).map (fun l => l ++ v :: []) else m q := by
  unfold fpush
  by_cases hq : q = k
  · subst hq
    cases hm : m q with
    | none => simp [hm]
    | some l => simp [hm, fset_self]
  · cases hm : m k with
    | none => simp [hm, hq]
    | some l => simp [hm, hq, fset_ne _ _ _ _ hq]

theorem topoPrepareInner_inv (nodes : List Nat) (u : Nat) (hu : u ∈ nodes) :
    ∀ (vs : List Nat) (p : (Nat → Option (List Nat)) × (Nat → Option Int)),
      (∀ v lv, p.1 v = some lv → ∀ w ∈ lv, w ∈ nodes) →
      (∀ v, (p.2 v).isSome ↔ v ∈ nodes) →
      (∀ v k, p.2 v = some k → 0 ≤ k) →
      (∀ v lv,
          (vs.foldl (fun p v => (fpush p.1 v u, fset p.2 u (((p.2 u).getD 0) + 1))) p).1 v
            = some lv → ∀ w ∈ lv, w ∈ nodes) ∧
        (∀ v,
          ((vs.foldl (fun p v => (fpush p.1 v u, fset p.2 u (((p.2 u).getD 0) + 1))) p).2 v).isSome
            ↔ v ∈ nodes) ∧
        (∀ v k,
          (vs.foldl (fun p v => (fpush p.1 v u, fset p.2 u (((p.2 u).getD 0) + 1))) p).2 v
            = some k → 0 ≤ k) := by
  intro vs
  induction vs with
  | nil => intro p h1 h2 h3; exact ⟨h1, h2, h3⟩
  | cons v rest ih =>
    intro p h1 h2 h3
    rw [List.foldl_cons]
    refine ih _ ?_ ?_ ?_
    · intro w lw hw x hx
      have hw2 : fpush p.1 v u w = some lw := hw
      rw [fpush_lookup] at hw2
      by_cases hwv : w = v
      · rw [if_pos hwv] at hw2
        cases hpk : p.1 v with
        | none => rw [hpk] at hw2; cases hw2
        | some lv0 =>
          rw [hpk] at hw2
          simp only [Option.map] at hw2
          cases hw2
          rcases List.mem_append.mp hx with hx1 | hx2
          · exact h1 v lv0 hpk x hx1
          · rw [List.mem_singleton] at hx2
            subst hx2
            exact hu
      · rw [if_neg hwv] at hw2
        exact h1 w lw hw2 x hx
    · intro w
      show (fset p.2 u (((p.2 u).getD 0) + 1) w).isSome ↔ w ∈ nodes
      by_cases hwu : w = u
      · rw [hwu, fset_self]
        simpa using hu
      · rw [fset_ne _ _ _ _ hwu]
        exact h2 w
    · intro w k hk
      have hk2 : fset p.2 u (((p.2 u).getD 0) + 1) w = some k := hk
      by_cases hwu : w = u
      · rw [hwu, fset_self] at hk2
        cases hk2
        cases hpu : p.2 u with
        | none => simp [hpu]
        | some k0 =>
          have := h3 u k0 hpu
          simp only [hpu, Option.getD_some]
          omega
      · rw [fset_ne _ _ _ _ hwu] at hk2
        exact h3 w k hk2

theorem topoPrepare_inv (graph : Nat → Option (List Nat)) (nodes : List Nat) :
    ∀ (l : List Nat) (p : (Nat → Option (List Nat)) × (Nat → Option Int)),
      (∀ u ∈ l, u ∈ nodes) →
      (∀ v lv, p.1 v = some lv → ∀ w ∈ lv, w ∈ nodes) →
      (∀ v, (p.2 v).isSome ↔ v ∈ nodes) →
      (∀ v k, p.2 v = some k → 0 ≤ k) →
      (∀ v lv,
          (l.foldl
            (fun p u =>
              ((graph u).getD []).foldl
                (fun p v => (fpush p.1 v u, fset p.2 u (((p.2 u).getD 0) + 1)))
                p)
            p).1 v = some lv → ∀ w ∈ lv, w ∈ nodes) ∧
        (∀ v,
          ((l.foldl
            (fun p u =>
              ((graph u).getD []).foldl
                (fun p v => (fpush p.1 v u, fset p.2 u (((p.2 u).getD 0) + 1)))
                p)
            p).2 v).isSome ↔ v ∈ nodes) ∧
        (∀ v k,
          (l.foldl
            (fun p u =>
              ((graph u).getD []).foldl
                (fun p v => (fpush p.1 v u, fset p.2 u (((p.2 u).getD 0) + 1)))
                p)
            p).2 v = some k → 0 ≤ k) := by
  intro l
  induction l with
  | nil => intro p _ h1 h2 h3; exact ⟨h1, h2, h3⟩
  | cons u rest ih =>
    intro p hl h1 h2 h3
    rw [List.foldl_cons]
    have hu : u ∈ nodes := hl u (by simp)
    have hstep := topoPrepareInner_inv nodes u hu ((graph u).getD []) p h1 h2 h3
    exact ih _ (fun w hw => hl w (by simp [hw])) hstep.1 hstep.2.1 hstep.2.2

theorem topoPrepare_props (graph : Nat → Option (List Nat)) (nodes : List Nat) :
    (∀ v lv,
        (topoPrepare graph nodes (initialAdjacency nodes) (initialInDegrees nodes)).1 v
          = some lv → ∀ w ∈ lv, w ∈ nodes) ∧
      (∀ v,
        ((topoPrepare graph nodes (initialAdjacency nodes) (initialInDegrees nodes)).2 v).isSome
          ↔ v ∈ nodes) ∧
      (∀ v k,
        (topoPrepare graph nodes (initialAdjacency nodes) (initialInDegrees nodes)).2 v
          = some k → 0 ≤ k) := by
  unfold topoPrepare
  apply topoPrepare_inv graph nodes nodes _ (fun u hu => hu)
  · intro v lv hv w hw
    have hv2 : initialAdjacency nodes v = some lv := hv
    unfold initialAdjacency at hv2
    by_cases hvn : v ∈ nodes
    · rw [if_pos hvn] at hv2
      cases hv2
      cases hw
    · rw [if_neg hvn] at hv2
      cases hv2
  · intro v
    show (initialInDegrees nodes v).isSome ↔ v ∈ nodes
    unfold initialInDegrees
    by_cases hvn : v ∈ nodes <;> simp [hvn]
  · intro v k hk
    have hk2 : initialInDegrees nodes v = some k := hk
    unfold initialInDegrees at hk2
    by_cases hvn : v ∈ nodes
    · rw [if_pos hvn] at hk2
      cases hk2
      exact le_refl 0
    · rw [if_neg hvn] at hk2
      cases hk2

theorem topoProcess_inv (nodes E : List Nat) :
    ∀ (vs : List Nat) (p : (Nat → Option Int) × List Nat),
      (∀ v ∈ vs, v ∈ nodes) →
      (E ++ p.2).Nodup →
      (∀ x ∈ E ++ p.2, x ∈ nodes) →
      (∀ x ∈ E ++ p.2, ∀ k, p.1 x = some k → k ≤ 0) →
      (∀ x ∈ nodes, x ∉ E ++ p.2 → ∀ k, p.1 x = some k → 1 ≤ k) →
      (∀ x, (p.1 x).isSome ↔ x ∈ nodes) →
      ((E ++ (vs.foldl
          (fun (p : (Nat → Option Int) × List Nat) v =>
            if ((p.1 v).getD 0) - 1 = 0 then
              (fset p.1 v (((p.1 v).getD 0) - 1), p.2 ++ v :: [])
            else (fset p.1 v (((p.1 v).getD 0) - 1), p.2))
          p).2).Nodup ∧
        (∀ x ∈ E ++ (vs.foldl
          (fun (p : (Nat → Option Int) × List Nat) v =>
            if ((p.1 v).getD 0) - 1 = 0 then
              (fset p.1 v (((p.1 v).getD 0) - 1), p.2 ++ v :: [])
            else (fset p.1 v (((p.1 v).getD 0) - 1), p.2))
          p).2, x ∈ nodes) ∧
        (∀ x ∈ E ++ (vs.foldl
          (fun (p : (Nat → Option Int) × List Nat) v =>
            if ((p.1 v).getD 0) - 1 = 0 then
              (fset p.1 v (((p.1 v).getD 0) - 1), p.2 ++ v :: [])
            else (fset p.1 v (((p.1 v).getD 0) - 1), p.2))
          p).2, ∀ k,
          (vs.foldl
            (fun (p : (Nat → Option Int) × List Nat) v =>
              if ((p.1 v).getD 0) - 1 = 0 then
                (fset p.1 v (((p.1 v).getD 0) - 1), p.2 ++ v :: [])
              else (fset p.1 v (((p.1 v).getD 0) - 1), p.2))
            p).1 x = some k → k ≤ 0) ∧
        (∀ x ∈ nodes, x ∉ E ++ (vs.foldl
          (fun (p : (Nat → Option Int) × List Nat) v =>
            if ((p.1 v).getD 0) - 1 = 0 then
              (fset p.1 v (((p.1 v).getD 0) - 1), p.2 ++ v :: [])
            else (fset p.1 v (((p.1 v).getD 0) - 1), p.2))
          p).2 → ∀ k,
          (vs.foldl
            (fun (p : (Nat → Option Int) × List Nat) v =>
              if ((p.1 v).getD 0) - 1 = 0 then
                (fset p.1 v (((p.1 v).getD 0) - 1), p.2 ++ v :: [])
              else (fset p.1 v (((p.1 v).getD 0) - 1), p.2))
            p).1 x = some k → 1 ≤ k) ∧
        (∀ x,
          ((vs.foldl
            (fun (p : (Nat → Option Int) × List Nat) v =>
              if ((p.1 v).getD 0) - 1 = 0 then
                (fset p.1 v (((p.1 v).getD 0) - 1), p.2 ++ v :: [])
              else (fset p.1 v (((p.1 v).getD 0) - 1), p.2))
            p).1 x).isSome ↔ x ∈ nodes)) := by
  intro vs
  induction vs with
  | nil =>
    intro p _ hnd hsub hneg hpos hdom
    exact ⟨hnd, hsub, hneg, hpos, hdom⟩
  | cons v rest ih =>
    intro p hvs hnd hsub hneg hpos hdom
    have hv : v ∈ nodes := hvs v (by simp)
    obtain ⟨k0, hk0⟩ : ∃ k0, p.1 v = some k0 := by
      have := (hdom v).mpr hv
      cases hp : p.1 v with
      | none => rw [hp] at this; cases this
      | some k0 => exact ⟨k0, rfl⟩
    rw [List.foldl_cons]
    by_cases hd : ((p.1 v).getD 0) - 1 = 0
    · rw [if_pos hd]
      rw [hk0] at hd
      simp only [Option.getD_some] at hd
      have hvnotin : v ∉ E ++ p.2 := by
        intro hvin
        have := hneg v hvin k0 hk0
        omega
      have hnd2 : (E ++ (p.2 ++ v :: [])).Nodup := by
        rw [← List.append_assoc]
        rw [List.nodup_append]
        refine ⟨hnd, List.nodup_singleton v, ?_⟩
        intro a ha hb
        rw [List.mem_singleton] at hb
        subst hb
        exact hvnotin ha
      refine ih _ (fun w hw => hvs w (by simp [hw])) ?_ ?_ ?_ ?_ ?_
      · exact hnd2
      · intro x hx
        rw [← List.append_assoc] at hx
        rcases List.mem_append.mp hx with hx1 | hx2
        · exact hsub x hx1
        · rw [List.mem_singleton] at hx2
          subst hx2
          exact hv
      · intro x hx k hk
        rw [← List.append_assoc] at hx
        have hk2 : fset p.1 v (((p.1 v).getD 0) - 1) x = some k := hk
        by_cases hxv : x = v
        · rw [hxv, fset_self] at hk2
          cases hk2
          rw [hk0]
          simp only [Option.getD_some]
          omega
        · rw [fset_ne _ _ _ _ hxv] at hk2
          rcases List.mem_append.mp hx with hx1 | hx2
          · exact hneg x hx1 k hk2
          · rw [List.mem_singleton] at hx2
            exact absurd hx2 hxv
      · intro x hxn hx k hk
        rw [← List.append_assoc] at hx
        have hxv : x ≠ v := by
          intro hEq
          exact hx (by rw [hEq]; simp)
        have hk2 : fset p.1 v (((p.1 v).getD 0) - 1) x = some k := hk
        rw [fset_ne _ _ _ _ hxv] at hk2
        refine hpos x hxn ?_ k hk2
        intro hxin
        exact hx (List.mem_append_left _ hxin)
      · intro x
        show (fset p.1 v (((p.1 v).getD 0) - 1) x).isSome ↔ x ∈ nodes
        by_cases hxv : x = v
        · rw [hxv, fset_self]
          simpa using hv
        · rw [fset_ne _ _ _ _ hxv]
          exact hdom x
    · rw [if_neg hd]
      rw [hk0] at hd
      simp only [Option.getD_some] at hd
      refine ih _ (fun w hw => hvs w (by simp [hw])) hnd hsub ?_ ?_ ?_
      · intro x hx k hk
        have hk2 : fset p.1 v (((p.1 v).getD 0) - 1) x = some k := hk
        by_cases hxv : x = v
        · rw [hxv, fset_self] at hk2
          cases hk2
          have := hneg v (hxv ▸ hx) k0 hk0
          rw [hk0]
          simp only [Option.getD_some]
          omega
        · rw [fset_ne _ _ _ _ hxv] at hk2
          exact hneg x hx k hk2
      · intro x hxn hx k hk
        have hk2 : fset p.1 v (((p.1 v).getD 0) - 1) x = some k := hk
        by_cases hxv : x = v
        · rw [hxv, fset_self] at hk2
          cases hk2
          have := hpos v hv (hxv ▸ hx) k0 hk0
          rw [hk0]
          simp only [Option.getD_some]
          omega
        · rw [fset_ne _ _ _ _ hxv] at hk2
          exact hpos x hxn hx k hk2
      · intro x
        show (fset p.1 v (((p.1 v).getD 0) - 1) x).isSome ↔ x ∈ nodes
        by_cases hxv : x = v
        · rw [hxv, fset_self]
          simpa using hv
        · rw [fset_ne _ _ _ _ hxv]
          exact hdom x

theorem topoProcess_spec (nodes E : List Nat) (vs : List Nat) (indeg : Nat → Option Int)
    (hvs : ∀ v ∈ vs, v ∈ nodes)
    (hnd : E.Nodup)
    (hsub : ∀ x ∈ E, x ∈ nodes)
    (hneg : ∀ x ∈ E, ∀ k, indeg x = some k → k ≤ 0)
    (hpos : ∀ x ∈ nodes, x ∉ E → ∀ k, indeg x = some k → 1 ≤ k)
    (hdom : ∀ x, (indeg x).isSome ↔ x ∈ nodes) :
    (E ++ (topoProcess vs indeg).2).Nodup ∧
      (∀ x ∈ E ++ (topoProcess vs indeg).2, x ∈ nodes) ∧
      (∀ x ∈ E ++ (topoProcess vs indeg).2, ∀ k,
        (topoProcess vs indeg).1 x = some k → k ≤ 0) ∧
      (∀ x ∈ nodes, x ∉ E ++ (topoProcess vs indeg).2 → ∀ k,
        (topoProcess vs indeg).1 x = some k → 1 ≤ k) ∧
      (∀ x, ((topoProcess vs indeg).1 x).isSome ↔ x ∈ nodes) :=
  topoProcess_inv nodes E vs (indeg, []) hvs (by simpa using hnd) (by simpa using hsub)
    (by simpa using hneg) (by simpa using hpos) hdom

theorem topoLoop_inv (nodes : List Nat)
    (adj : Nat → Option (List Nat))
    (hadj : ∀ v lv, adj v = some lv → ∀ w ∈ lv, w ∈ nodes) :
    ∀ (fuel : Nat) (queue order : List Nat) (indeg : Nat → Option Int),
      (order ++ queue).Nodup →
      (∀ x ∈ order ++ queue, x ∈ nodes) →
      (∀ x ∈ order ++ queue, ∀ k, indeg x = some k → k ≤ 0) →
      (∀ x ∈ nodes, x ∉ order ++ queue → ∀ k, indeg x = some k → 1 ≤ k) →
      (∀ x, (indeg x).isSome ↔ x ∈ nodes) →
      nodes.length + 1 ≤ fuel + order.length →
      (topoLoop adj fuel queue order indeg).1.Nodup ∧
        (∀ x ∈ (topoLoop adj fuel queue order indeg).1, x ∈ nodes) := by
  intro fuel
  induction fuel with
  | zero =>
    intro queue order indeg hnd hsub _ _ _ hfuel
    exfalso
    have h1 : order.Nodup := hnd.of_append_left
    have h2 : order ⊆ nodes := fun x hx => hsub x (List.mem_append_left _ hx)
    have h3 := nodup_subset_length_le order nodes h1 h2
    omega
  | succ f ih =>
    intro queue order indeg hnd hsub hneg hpos hdom hfuel
    cases queue with
    | nil =>
      simp only [List.append_nil] at hnd hsub
      exact ⟨hnd, hsub⟩
    | cons u rest =>
      have hvs : ∀ v ∈ (adj u).getD [], v ∈ nodes := by
        intro v hv
        cases ha : adj u with
        | none => rw [ha] at hv; simp at hv
        | some lv =>
          rw [ha] at hv
          simp only [Option.getD_some] at hv
          exact hadj u lv ha v hv
      have hP := topoProcess_spec nodes (order ++ u :: rest) ((adj u).getD []) indeg hvs
        hnd hsub hneg hpos hdom
      obtain ⟨hnd2, hsub2, hneg2, hpos2, hdom2⟩ := hP
      have hshape :
          (order ++ u :: []) ++ (rest ++ (topoProcess ((adj u).getD []) indeg).2) =
            (order ++ u :: rest) ++ (topoProcess ((adj u).getD []) indeg).2 := by
        simp
      show (topoLoop adj f (rest ++ (topoProcess ((adj u).getD []) indeg).2)
          (order ++ u :: []) (topoProcess ((adj u).getD []) indeg).1).1.Nodup ∧ _
      refine ih (rest ++ (topoProcess ((adj u).getD []) indeg).2) (order ++ u :: [])
        (topoProcess ((adj u).getD []) indeg).1 ?_ ?_ ?_ ?_ hdom2 ?_
      · rw [hshape]
        exact hnd2
      · rw [hshape]
        exact hsub2
      · rw [hshape]
        exact hneg2
      · intro x hx hxn
        refine hpos2 x hx ?_
        rw [← hshape]
        exact hxn
      · have : (order ++ u :: []).length = order.length + 1 := by simp
        omega

theorem topoSort_order_nodup_subset (graph : Nat → Option (List Nat)) (nodes : List Nat)
    (hn : nodes.Nodup) :
    (topologicalSort graph nodes).sortedOrder.Nodup ∧
      ∀ x ∈ (topologicalSort graph nodes).sortedOrder, x ∈ nodes := by
  obtain ⟨hadj, hdom, hnonneg⟩ := topoPrepare_props graph nodes
  rw [topologicalSort_eq]
  set P := topoPrepare graph nodes (initialAdjacency nodes) (initialInDegrees nodes) with hPdef
  refine topoLoop_inv nodes P.1 hadj (topoFuel nodes)
    (nodes.filter (fun n => P.2 n == some 0)) [] P.2 ?_ ?_ ?_ ?_ hdom ?_
  · simpa using hn.filter _
  · simp only [List.nil_append]
    intro x hx
    exact (List.mem_filter.mp hx).1
  · simp only [List.nil_append]
    intro x hx k hk
    have hbeq := (List.mem_filter.mp hx).2
    have heq : P.2 x = some 0 := by simpa using hbeq
    rw [heq] at hk
    cases hk
    exact le_refl 0
  · simp only [List.nil_append]
    intro x hxn hxnot k hk
    have hk0 := hnonneg x k hk
    have hne : P.2 x ≠ some 0 := by
      intro hp
      exact hxnot (List.mem_filter.mpr ⟨hxn, by simpa using hp⟩)
    have hkne : k ≠ 0 := by
      intro h
      exact hne (h ▸ hk)
    omega
  · simp only [List.length_nil]
    unfold topoFuel
    set q := nodes.length * nodes.length
    omega

theorem topoSort_complete (graph : Nat → Option (List Nat)) (nodes : List Nat)
    (hn : nodes.Nodup)
    (hflag : (topologicalSort graph nodes).hasCycle = false) :
    ∀ x ∈ nodes, x ∈ (topologicalSort graph nodes).sortedOrder := by
  obtain ⟨hndo, hsub⟩ := topoSort_order_nodup_subset graph nodes hn
  have hlen := (topologicalSort_hasCycle_iff graph nodes).mp hflag
  exact mem_of_nodup_subset_length_eq _ _ hndo hn (fun x hx => hsub x hx) hlen

/-! ## Lemmas about terminal selection and critical-path backtracking -/

theorem find_by_id_props (todos : List Todo) (x : Nat) (t : Todo)
    (h : todos.find? (fun u => u.id == x) = some t) : t ∈ todos ∧ t.id = x := by
  refine ⟨List.mem_of_find?_eq_some h, ?_⟩
  have := List.find?_some h
  simpa using this

theorem find_by_id_eq (todos : List Todo) (hnd : (todos.map (fun t => t.id)).Nodup)
    (t : Todo) (ht : t ∈ todos) :
    todos.find? (fun u => u.id == t.id) = some t := by
  induction todos with
  | nil => cases ht
  | cons h rest ih =>
    simp only [List.map_cons, List.nodup_cons] at hnd
    rcases List.mem_cons.mp ht with rfl | ht'
    · rw [List.find?_cons_of_pos _ (by simp)]
    · have hne : (h.id == t.id) = false := by
        have : h.id ≠ t.id := by
          intro hEq
          exact hnd.1 (hEq ▸ List.mem_map_of_mem (fun t => t.id) ht')
        simpa using this
      rw [List.find?_cons_of_neg _ (by simp [hne])]
      exact ih hnd.2 ht'

theorem selectStep_none (todos : List Todo) (m : Nat → Option Insight)
    (acc : Int × Option Todo) (x : Nat) (h : m x = none) :
    selectStep todos m acc x = acc := by
  unfold selectStep
  rw [h]

theorem selectStep_lt (todos : List Todo) (m : Nat → Option Insight)
    (acc : Int × Option Todo) (x : Nat) (i : Insight) (h : m x = some i)
    (hlt : acc.1 < i.earliestStart) :
    selectStep todos m acc x = (i.earliestStart, todos.find? (fun t => t.id == x)) := by
  unfold selectStep
  rw [h]
  exact if_pos hlt

theorem selectStep_ge (todos : List Todo) (m : Nat → Option Insight)
    (acc : Int × Option Todo) (x : Nat) (i : Insight) (h : m x = some i)
    (hlt : ¬acc.1 < i.earliestStart) :
    selectStep todos m acc x = acc := by
  unfold selectStep
  rw [h]
  exact if_neg hlt

theorem selectTerminal_go (todos : List Todo) (m : Nat → Option Insight) :
    ∀ (l : List Nat) (acc : Int × Option Todo),
      acc.1 ≤ (l.foldl (selectStep todos m) acc).1 ∧
        (∀ x ∈ l, ∀ v, m x = some v →
          v.earliestStart ≤ (l.foldl (selectStep todos m) acc).1) ∧
        (l.foldl (selectStep todos m) acc = acc ∨
          ∃ x ∈ l, ∃ v, m x = some v ∧
            (l.foldl (selectStep todos m) acc).1 = v.earliestStart ∧
            (l.foldl (selectStep todos m) acc).2 = todos.find? (fun t => t.id == x)) := by
  intro l
  induction l with
  | nil =>
    intro acc
    exact ⟨le_refl _, by simp, Or.inl rfl⟩
  | cons x l ih =>
    intro acc
    rw [List.foldl_cons]
    cases hm : m x with
    | none =>
      rw [selectStep_none todos m acc x hm]
      obtain ⟨h1, h2, h3⟩ := ih acc
      refine ⟨h1, ?_, ?_⟩
      · intro y hy v hv
        rcases List.mem_cons.mp hy with rfl | hy'
        · rw [hv] at hm; cases hm
        · exact h2 y hy' v hv
      · rcases h3 with h | ⟨y, hy, v, hv, ha, hb⟩
        · exact Or.inl h
        · exact Or.inr ⟨y, List.mem_cons_of_mem _ hy, v, hv, ha, hb⟩
    | some i =>
      by_cases hlt : acc.1 < i.earliestStart
      · rw [selectStep_lt todos m acc x i hm hlt]
        obtain ⟨h1, h2, h3⟩ := ih (i.earliestStart, todos.find? (fun t => t.id == x))
        refine ⟨le_trans (le_of_lt hlt) h1, ?_, ?_⟩
        · intro y hy v hv
          rcases List.mem_cons.mp hy with rfl | hy'
          · rw [hv] at hm
            cases hm
            exact h1
          · exact h2 y hy' v hv
        · rcases h3 with h | ⟨y, hy, v, hv, ha, hb⟩
          · refine Or.inr ⟨x, by simp, i, hm, ?_, ?_⟩
            · rw [h]
            · rw [h]
          · exact Or.inr ⟨y, List.mem_cons_of_mem _ hy, v, hv, ha, hb⟩
      · rw [selectStep_ge todos m acc x i hm hlt]
        obtain ⟨h1, h2, h3⟩ := ih acc
        refine ⟨h1, ?_, ?_⟩
        · intro y hy v hv
          rcases List.mem_cons.mp hy with rfl | hy'
          · rw [hv] at hm
            cases hm
            exact le_trans (not_lt.mp hlt) h1
          · exact h2 y hy' v hv
        · rcases h3 with h | ⟨y, hy, v, hv, ha, hb⟩
          · exact Or.inl h
          · exact Or.inr ⟨y, List.mem_cons_of_mem _ hy, v, hv, ha, hb⟩

theorem selectTerminal_spec (todos : List Todo) (m : Nat → Option Insight)
    (order : List Nat)
    (hpos : ∀ x ∈ order, ∃ v, m x = some v ∧ 0 < v.earliestStart)
    (hne : order ≠ []) :
    ∃ x ∈ order, ∃ v, m x = some v ∧
      (selectTerminal todos m order).1 = v.earliestStart ∧
      (selectTerminal todos m order).2 = todos.find? (fun t => t.id == x) ∧
      ∀ y ∈ order, ∀ w, m y = some w → w.earliestStart ≤ v.earliestStart := by
  obtain ⟨hacc, hmax, hdisj⟩ := selectTerminal_go todos m order (0, none)
  rcases hdisj with heq | ⟨x, hx, v, hv, h1, h2⟩
  · exfalso
    obtain ⟨x, hx⟩ := List.exists_mem_of_ne_nil order hne
    obtain ⟨v, hv, hvpos⟩ := hpos x hx
    have hle := hmax x hx v hv
    rw [heq] at hle
    simp only at hle
    omega
  · refine ⟨x, hx, v, hv, h1, h2, ?_⟩
    intro y hy w hw
    have := hmax y hy w hw
    rw [h1] at this
    exact this

theorem markCritical_lookup_single (m : Nat → Option Insight) (c i : Nat) :
    markCritical m c i =
      (m i).map (fun v => ⟨v.earliestStart, v.isCritical || decide (i ∈ c :: [])⟩) := by
  by_cases hic : i = c
  · subst hic
    unfold markCritical
    cases hm : m i with
    | none => exact hm
    | some v => simp [fset_self, hm]
  · have hdec : decide (i ∈ c :: []) = false := by simp [hic]
    simp only [hdec, Bool.or_false]
    unfold markCritical
    cases hm : m c with
    | none =>
      show m i = Option.map (fun v => (⟨v.earliestStart, v.isCritical⟩ : Insight)) (m i)
      cases m i <;> rfl
    | some v =>
      show fset m c ⟨v.earliestStart, true⟩ i
          = Option.map (fun v => (⟨v.earliestStart, v.isCritical⟩ : Insight)) (m i)
      rw [fset_ne _ _ _ _ hic]
      cases m i <;> rfl

theorem backtrackMark_succ (todos : List Todo) (fuel : Nat) (m : Nat → Option Insight)
    (c : Nat) :
    backtrackMark todos (fuel + 1) m c =
      match todos.find? (fun t => t.id == c) with
      | none => markCritical m c
      | some currentTodo =>
        if currentTodo.dependsOn.isEmpty then markCritical m c
        else
          match (selectNextDep (markCritical m c) currentTodo.dependsOn).2 with
          | none => markCritical m c
          | some nxt => backtrackMark todos fuel (markCritical m c) nxt := rfl

theorem criticalChain_succ (todos : List Todo) (fuel : Nat) (m : Nat → Option Insight)
    (c : Nat) :
    criticalChain todos (fuel + 1) m c =
      match todos.find? (fun t => t.id == c) with
      | none => c :: []
      | some currentTodo =>
        if currentTodo.dependsOn.isEmpty then c :: []
        else
          match (selectNextDep (markCritical m c) currentTodo.dependsOn).2 with
          | none => c :: []
          | some nxt => c :: criticalChain todos fuel (markCritical m c) nxt := rfl

theorem backtrackMark_lookup (todos : List Todo) :
    ∀ (fuel : Nat) (m : Nat → Option Insight) (c i : Nat),
      backtrackMark todos fuel m c i =
        (m i).map (fun v =>
          ⟨v.earliestStart, v.isCritical || decide (i ∈ criticalChain todos fuel m c)⟩) := by
  intro fuel
  induction fuel with
  | zero =>
    intro m c i
    show m i = (m i).map
      (fun v => ⟨v.earliestStart, v.isCritical || decide (i ∈ criticalChain todos 0 m c)⟩)
    have h0 : criticalChain todos 0 m c = [] := rfl
    simp only [h0]
    cases m i with
    | none => rfl
    | some v => simp
  | succ f ih =>
    intro m c i
    cases hf : todos.find? (fun t => t.id == c) with
    | none =>
      have hb : backtrackMark todos (f + 1) m c = markCritical m c := by
        rw [backtrackMark_succ, hf]
      have hc : criticalChain todos (f + 1) m c = c :: [] := by
        rw [criticalChain_succ, hf]
      simp only [hb, hc]
      exact markCritical_lookup_single m c i
    | some ct =>
      by_cases he : ct.dependsOn.isEmpty = true
      · have hb : backtrackMark todos (f + 1) m c = markCritical m c := by
          rw [backtrackMark_succ, hf]
          exact if_pos he
        have hc : criticalChain todos (f + 1) m c = c :: [] := by
          rw [criticalChain_succ, hf]
          exact if_pos he
        simp only [hb, hc]
        exact markCritical_lookup_single m c i
      · cases hsel : (selectNextDep (markCritical m c) ct.dependsOn).2 with
        | none =>
          have hb : backtrackMark todos (f + 1) m c = markCritical m c := by
            rw [backtrackMark_succ, hf]
            show (if ct.dependsOn.isEmpty then markCritical m c
                else
                  match (selectNextDep (markCritical m c) ct.dependsOn).2 with
                  | none => markCritical m c
                  | some nxt => backtrackMark todos f (markCritical m c) nxt)
                = markCritical m c
            rw [if_neg he, hsel]
          have hc : criticalChain todos (f + 1) m c = c :: [] := by
            rw [criticalChain_succ, hf]
            show (if ct.dependsOn.isEmpty then c :: []
                else
                  match (selectNextDep (markCritical m c) ct.dependsOn).2 with
                  | none => c :: []
                  | some nxt => c :: criticalChain todos f (markCritical m c) nxt)
                = c :: []
            rw [if_neg he, hsel]
          simp only [hb, hc]
          exact markCritical_lookup_single m c i
        | some nxt =>
          have hb : backtrackMark todos (f + 1) m c
              = backtrackMark todos f (markCritical m c) nxt := by
            rw [backtrackMark_succ, hf]
            show (if ct.dependsOn.isEmpty then markCritical m c
                else
                  match (selectNextDep (markCritical m c) ct.dependsOn).2 with
                  | none => markCritical m c
                  | some nxt => backtrackMark todos f (markCritical m c) nxt)
                = backtrackMark todos f (markCritical m c) nxt
            rw [if_neg he, hsel]
          have hc : criticalChain todos (f + 1) m c
              = c :: criticalChain todos f (markCritical m c) nxt := by
            rw [criticalChain_succ, hf]
            show (if ct.dependsOn.isEmpty then c :: []
                else
                  match (selectNextDep (markCritical m c) ct.dependsOn).2 with
                  | none => c :: []
                  | some nxt => c :: criticalChain todos f (markCritical m c) nxt)
                = c :: criticalChain todos f (markCritical m c) nxt
            rw [if_neg he, hsel]
          simp only [hb, hc]
          rw [ih (markCritical m c) nxt i]
          by_cases hic : i = c
          · subst hic
            unfold markCritical
            cases hm : m i with
            | none => simp [hm]
            | some v => simp [hm, fset_self]
          · have h1 : markCritical m c i = m i := by
              unfold markCritical
              cases hm : m c with
              | none => rfl
              | some v => exact fset_ne _ _ _ _ hic
            rw [h1]
            have h2 : decide (i ∈ c :: criticalChain todos f (markCritical m c) nxt)
                = decide (i ∈ criticalChain todos f (markCritical m c) nxt) := by
              simp [List.mem_cons, hic]
            simp only [h2]

/-! ## Branch characterizations of the insight computation -/

theorem calculateTaskInsights_cycle (todos : List Todo)
    (h : (topoOf todos).hasCycle = true) :
    calculateTaskInsights todos = (cycleInsights todos, true) := by
  unfold calculateTaskInsights
  simp [h]

theorem calculateTaskInsights_acyclic (todos : List Todo)
    (h : (topoOf todos).hasCycle = false) :
    calculateTaskInsights todos =
      (match (selectTerminal todos (scheduleInsights todos) (topoOf todos).sortedOrder).2 with
        | none => (scheduleInsights todos, false)
        | some lastTask =>
          (backtrackMark todos (todos.length + 1) (scheduleInsights todos) lastTask.id,
            false)) := by
  unfold calculateTaskInsights
  simp [h]

/-! ## No-dependency snapshots and the backtrack selection step -/

theorem getLast_cons_ne_nil {α : Type} (a : α) (l : List α) (h : l ≠ []) :
    (a :: l).getLast? = l.getLast? := by
  cases l with
  | nil => exact absurd rfl h
  | cons b l2 => rfl

theorem addGraphEdges_no_deps (nodes : List Nat) :
    ∀ (todos : List Todo) (g r : Nat → Option (List Nat)),
      (∀ t ∈ todos, t.dependsOn = []) →
      addGraphEdges todos nodes g r = (g, r) := by
  intro todos
  induction todos with
  | nil => intro g r _; rfl
  | cons h rest ih =>
    intro g r hdeps
    unfold addGraphEdges
    rw [List.foldl_cons, hdeps h (by simp), List.foldl_nil]
    exact ih g r (fun t ht => hdeps t (by simp [ht]))

theorem buildReverse_no_deps (todos : List Todo)
    (hdeps : ∀ t ∈ todos, t.dependsOn = []) :
    (buildDependencyGraph todos).reverseGraph = initGraphEntries todos := by
  rw [buildDependencyGraph_eq]
  rw [addGraphEdges_no_deps _ todos _ _ hdeps]

theorem selectNextDep_go (m : Nat → Option Insight) :
    ∀ (l : List DepRef) (acc : Int × Option Nat),
      ((∀ d ∈ l, effectiveCompletion m d < acc.1) ∧
        l.foldl
          (fun acc dep =>
            if acc.1 ≤ effectiveCompletion m dep then (effectiveCompletion m dep, some dep.id)
            else acc)
          acc = acc) ∨
      (∃ dstar,
        (l.filter (fun d => effectiveCompletion m d ==
          (l.foldl
            (fun acc dep =>
              if acc.1 ≤ effectiveCompletion m dep then (effectiveCompletion m dep, some dep.id)
              else acc)
            acc).1)).getLast? = some dstar ∧
        (l.foldl
          (fun acc dep =>
            if acc.1 ≤ effectiveCompletion m dep then (effectiveCompletion m dep, some dep.id)
            else acc)
          acc).2 = some dstar.id ∧
        acc.1 ≤ (l.foldl
          (fun acc dep =>
            if acc.1 ≤ effectiveCompletion m dep then (effectiveCompletion m dep, some dep.id)
            else acc)
          acc).1 ∧
        (∀ d ∈ l, effectiveCompletion m d ≤ (l.foldl
          (fun acc dep =>
            if acc.1 ≤ effectiveCompletion m dep then (effectiveCompletion m dep, some dep.id)
            else acc)
          acc).1)) := by
  intro l
  induction l with
  | nil =>
    intro acc
    exact Or.inl ⟨by simp, rfl⟩
  | cons d l ih =>
    intro acc
    rw [List.foldl_cons]
    by_cases hle : acc.1 ≤ effectiveCompletion m d
    · rw [if_pos hle]
      rcases ih (effectiveCompletion m d, some d.id) with ⟨hall, heq⟩ | ⟨dstar, hlast, hid, hacc, hbound⟩
      · refine Or.inr ⟨d, ?_, ?_, ?_, ?_⟩
        · rw [heq]
          have hfl : l.filter (fun e => effectiveCompletion m e == effectiveCompletion m d) = [] := by
            apply List.filter_eq_nil_iff.mpr
            intro e he
            have := hall e he
            simp only at this
            simp only [beq_iff_eq]
            omega
          rw [List.filter_cons, if_pos (by simp), hfl]
          rfl
        · rw [heq]
        · rw [heq]
          exact hle
        · intro e he
          rw [heq]
          rcases List.mem_cons.mp he with rfl | he'
          · exact le_refl _
          · exact le_of_lt (hall e he')
      · refine Or.inr ⟨dstar, ?_, hid, le_trans hle hacc, ?_⟩
        · have hflne : l.filter (fun e => effectiveCompletion m e ==
              (l.foldl
                (fun acc dep =>
                  if acc.1 ≤ effectiveCompletion m dep then
                    (effectiveCompletion m dep, some dep.id)
                  else acc)
                (effectiveCompletion m d, some d.id)).1) ≠ [] := by
            intro hnil
            rw [hnil] at hlast
            cases hlast
          by_cases hdm : (effectiveCompletion m d ==
              (l.foldl
                (fun acc dep =>
                  if acc.1 ≤ effectiveCompletion m dep then
                    (effectiveCompletion m dep, some dep.id)
                  else acc)
                (effectiveCompletion m d, some d.id)).1) = true
          · rw [List.filter_cons, if_pos hdm, getLast_cons_ne_nil _ _ hflne]
            exact hlast
          · rw [List.filter_cons, if_neg hdm]
            exact hlast
        · intro e he
          rcases List.mem_cons.mp he with rfl | he'
          · exact hacc
          · exact hbound e he'
    · rw [if_neg hle]
      push_neg at hle
      rcases ih acc with ⟨hall, heq⟩ | ⟨dstar, hlast, hid, hacc, hbound⟩
      · refine Or.inl ⟨?_, heq⟩
        intro e he
        rcases List.mem_cons.mp he with rfl | he'
        · exact hle
        · exact hall e he'
      · refine Or.inr ⟨dstar, ?_, hid, hacc, ?_⟩
        · have hdm : (effectiveCompletion m d ==
              (l.foldl
                (fun acc dep =>
                  if acc.1 ≤ effectiveCompletion m dep then
                    (effectiveCompletion m dep, some dep.id)
                  else acc)
                acc).1) = false := by
            have hlt := lt_of_lt_of_le hle hacc
            have hne : effectiveCompletion m d ≠
                (l.foldl
                  (fun acc dep =>
                    if acc.1 ≤ effectiveCompletion m dep then
                      (effectiveCompletion m dep, some dep.id)
                    else acc)
                  acc).1 := by omega
            simpa using hne
          rw [List.filter_cons, if_neg (by intro hcontra; rw [hdm] at hcontra; simp at hcontra)]
          exact hlast
        · intro e he
          rcases List.mem_cons.mp he with rfl | he'
          · exact le_of_lt (lt_of_lt_of_le hle hacc)
          · exact hbound e he'

/-! ## Lemmas about the PUT route cycle check -/

theorem check_succ (store : List Todo) (todoId fuel d : Nat) (visited : List Nat) :
    checkCircularDependency store todoId (fuel + 1) d visited =
      if d ∈ visited then (false, visited)
      else if todoId = d then (true, visited ++ d :: [])
      else
        match store.find? (fun t => t.id == d) with
        | none => (false, visited ++ d :: [])
        | some dependency =>
          dependency.dependsOn.foldl
            (fun r dep =>
              if r.1 then r else checkCircularDependency store todoId fuel dep.id r.2)
            (false, visited ++ d :: []) := rfl

theorem checkFold_of_true (store : List Todo) (todoId fuel : Nat) :
    ∀ (deps : List DepRef) (r : Bool × List Nat), r.1 = true →
      deps.foldl
        (fun r dep =>
          if r.1 then r else checkCircularDependency store todoId fuel dep.id r.2)
        r = r := by
  intro deps
  induction deps with
  | nil => intro r _; rfl
  | cons dep rest ih =>
    intro r hr
    rw [List.foldl_cons, if_pos hr]
    exact ih r hr

theorem check_sound (store : List Todo) (todoId : Nat) :
    ∀ (fuel : Nat) (d : Nat) (visited : List Nat),
      (checkCircularDependency store todoId fuel d visited).1 = true →
      Reach store d todoId := by
  intro fuel
  induction fuel with
  | zero =>
    intro d visited h
    simp [checkCircularDependency] at h
  | succ f ih =>
    intro d visited h
    rw [check_succ] at h
    by_cases h1 : d ∈ visited
    · rw [if_pos h1] at h
      simp at h
    · rw [if_neg h1] at h
      by_cases h2 : todoId = d
      · exact h2 ▸ Reach.refl todoId
      · rw [if_neg h2] at h
        cases hf : store.find? (fun t => t.id == d) with
        | none =>
          rw [hf] at h
          simp at h
        | some dependency =>
          rw [hf] at h
          have hfold : ∀ (deps : List DepRef) (r : Bool × List Nat),
              (deps.foldl
                (fun r dep =>
                  if r.1 then r else checkCircularDependency store todoId f dep.id r.2)
                r).1 = true →
              r.1 = true ∨ ∃ dep ∈ deps, Reach store dep.id todoId := by
            intro deps
            induction deps with
            | nil => intro r hr; exact Or.inl hr
            | cons dep rest ihl =>
              intro r hr
              rw [List.foldl_cons] at hr
              by_cases hr1 : r.1 = true
              · exact Or.inl hr1
              · rw [if_neg hr1] at hr
                rcases ihl _ hr with htrue | ⟨dep2, hdep2, hreach⟩
                · exact Or.inr ⟨dep, by simp, ih dep.id r.2 htrue⟩
                · exact Or.inr ⟨dep2, by simp [hdep2], hreach⟩
          rcases hfold dependency.dependsOn (false, visited ++ d :: []) h with
            htrue | ⟨dep, hdep, hreach⟩
          · simp at htrue
          · refine Reach.step ?_ hreach
            unfold depIds
            rw [hf]
            exact List.mem_map_of_mem _ hdep

theorem check_false_closed (store : List Todo) (todoId : Nat) (S : List Nat)
    (hS : ∀ t ∈ store, ∀ dep ∈ t.dependsOn, dep.id ∈ S) :
    ∀ (fuel : Nat) (d : Nat) (visited : List Nat),
      visited.Nodup → (∀ x ∈ visited, x ∈ S) → d ∈ S → todoId ∉ visited →
      S.length + 1 ≤ fuel + visited.length →
      (checkCircularDependency store todoId fuel d visited).1 = true ∨
      ((checkCircularDependency store todoId fuel d visited).2.Nodup ∧
        (∀ x ∈ visited, x ∈ (checkCircularDependency store todoId fuel d visited).2) ∧
        (∀ x ∈ (checkCircularDependency store todoId fuel d visited).2, x ∈ S) ∧
        d ∈ (checkCircularDependency store todoId fuel d visited).2 ∧
        todoId ∉ (checkCircularDependency store todoId fuel d visited).2 ∧
        (∀ x ∈ (checkCircularDependency store todoId fuel d visited).2, x ∉ visited →
          ∀ y ∈ depIds store x, y ∈ (checkCircularDependency store todoId fuel d visited).2)) := by
  intro fuel
  induction fuel with
  | zero =>
    intro d visited hnd hsub hdS htd hfuel
    exfalso
    have := nodup_subset_length_le visited S hnd (fun x hx => hsub x hx)
    omega
  | succ f ih =>
    intro d visited hnd hsub hdS htd hfuel
    rw [check_succ]
    by_cases h1 : d ∈ visited
    · rw [if_pos h1]
      refine Or.inr ⟨hnd, fun x hx => hx, hsub, h1, htd, ?_⟩
      intro x hx hxn
      exact absurd hx hxn
    · rw [if_neg h1]
      by_cases h2 : todoId = d
      · rw [if_pos h2]
        exact Or.inl rfl
      · rw [if_neg h2]
        have hnd1 : (visited ++ d :: []).Nodup := by
          rw [List.nodup_append]
          refine ⟨hnd, List.nodup_singleton d, ?_⟩
          intro a ha hb
          rw [List.mem_singleton] at hb
          exact h1 (hb ▸ ha)
        have hsub1 : ∀ x ∈ visited ++ d :: [], x ∈ S := by
          intro x hx
          rcases List.mem_append.mp hx with hx1 | hx2
          · exact hsub x hx1
          · rw [List.mem_singleton] at hx2
            exact hx2 ▸ hdS
        have htd1 : todoId ∉ visited ++ d :: [] := by
          intro hx
          rcases List.mem_append.mp hx with hx1 | hx2
          · exact htd hx1
          · rw [List.mem_singleton] at hx2
            exact h2 hx2
        cases hf : store.find? (fun t => t.id == d) with
        | none =>
          refine Or.inr ⟨hnd1, fun x hx => List.mem_append_left _ hx, hsub1, by simp, htd1, ?_⟩
          intro x hx hxn y hy
          rcases List.mem_append.mp hx with hx1 | hx2
          · exact absurd hx1 hxn
          · rw [List.mem_singleton] at hx2
            subst hx2
            unfold depIds at hy
            rw [hf] at hy
            simp at hy
        | some dependency =>
          have hdepsS : ∀ dep ∈ dependency.dependsOn, dep.id ∈ S :=
            fun dep hdep => hS dependency (List.mem_of_find?_eq_some hf) dep hdep
          have hfold : ∀ (deps : List DepRef) (vis : List Nat),
              (∀ dep ∈ deps, dep.id ∈ S) →
              vis.Nodup → (∀ x ∈ vis, x ∈ S) → todoId ∉ vis →
              S.length + 1 ≤ f + vis.length →
              (deps.foldl
                (fun r dep =>
                  if r.1 then r else checkCircularDependency store todoId f dep.id r.2)
                (false, vis)).1 = true ∨
              ((deps.foldl
                  (fun r dep =>
                    if r.1 then r else checkCircularDependency store todoId f dep.id r.2)
                  (false, vis)).2.Nodup ∧
                (∀ x ∈ vis, x ∈ (deps.foldl
                  (fun r dep =>
                    if r.1 then r else checkCircularDependency store todoId f dep.id r.2)
                  (false, vis)).2) ∧
                (∀ x ∈ (deps.foldl
                  (fun r dep =>
                    if r.1 then r else checkCircularDependency store todoId f dep.id r.2)
                  (false, vis)).2, x ∈ S) ∧
                todoId ∉ (deps.foldl
                  (fun r dep =>
                    if r.1 then r else checkCircularDependency store todoId f dep.id r.2)
                  (false, vis)).2 ∧
                (∀ dep ∈ deps, dep.id ∈ (deps.foldl
                  (fun r dep =>
                    if r.1 then r else checkCircularDependency store todoId f dep.id r.2)
                  (false, vis)).2) ∧
                (∀ x ∈ (deps.foldl
                  (fun r dep =>
                    if r.1 then r else checkCircularDependency store todoId f dep.id r.2)
                  (false, vis)).2, x ∉ vis →
                  ∀ y ∈ depIds store x, y ∈ (deps.foldl
                    (fun r dep =>
                      if r.1 then r else checkCircularDependency store todoId f dep.id r.2)
                    (false, vis)).2)) := by
            intro deps
            induction deps with
            | nil =>
              intro vis _ hvnd hvS hvtd _
              exact Or.inr ⟨hvnd, fun x hx => hx, hvS, hvtd, by simp, fun x hx hxn =>
                absurd hx hxn⟩
            | cons dep rest ihl =>
              intro vis hdS2 hvnd hvS hvtd hvfuel
              rw [List.foldl_cons]
              show (rest.foldl
                (fun r dep =>
                  if r.1 then r else checkCircularDependency store todoId f dep.id r.2)
                (checkCircularDependency store todoId f dep.id vis)).1 = true ∨ _
              rcases ih dep.id vis hvnd hvS (hdS2 dep (by simp)) hvtd hvfuel with
                htrue | ⟨hr1nd, hr1vis, hr1S, hr1dm, hr1td, hr1close⟩
              · rw [checkFold_of_true store todoId f rest _ htrue]
                exact Or.inl htrue
              · by_cases hb : (checkCircularDependency store todoId f dep.id vis).1 = true
                · rw [checkFold_of_true store todoId f rest _ hb]
                  exact Or.inl hb
                · have hb2 : (checkCircularDependency store todoId f dep.id vis).1 = false :=
                    Bool.eq_false_iff.mpr hb
                  have hsplit : checkCircularDependency store todoId f dep.id vis =
                      (false, (checkCircularDependency store todoId f dep.id vis).2) := by
                    rw [← hb2]
                  rw [hsplit]
                  have hlen : vis.length ≤
                      (checkCircularDependency store todoId f dep.id vis).2.length :=
                    nodup_subset_length_le _ _ hvnd (fun x hx => hr1vis x hx)
                  rcases ihl (checkCircularDependency store todoId f dep.id vis).2
                    (fun e he => hdS2 e (by simp [he])) hr1nd hr1S hr1td (by omega) with
                    htrue2 | ⟨hnd3, hvis3, hS3, htd3, hdeps3, hclose3⟩
                  · exact Or.inl htrue2
                  · refine Or.inr ⟨hnd3, ?_, hS3, htd3, ?_, ?_⟩
                    · intro x hx
                      exact hvis3 x (hr1vis x hx)
                    · intro e he
                      rcases List.mem_cons.mp he with rfl | he'
                      · exact hvis3 e.id hr1dm
                      · exact hdeps3 e he'
                    · intro x hx hxn y hy
                      by_cases hxr1 : x ∈ (checkCircularDependency store todoId f dep.id vis).2
                      · exact hvis3 y (hr1close x hxr1 hxn y hy)
                      · exact hclose3 x hx hxr1 y hy
          have hres := hfold dependency.dependsOn (visited ++ d :: []) hdepsS hnd1 hsub1 htd1
            (by simp at hfuel ⊢; omega)
          rcases hres with htrue | ⟨hnd3, hvis3, hS3, htd3, hdeps3, hclose3⟩
          · exact Or.inl htrue
          · refine Or.inr ⟨hnd3, ?_, hS3, ?_, htd3, ?_⟩
            · intro x hx
              exact hvis3 x (List.mem_append_left _ hx)
            · exact hvis3 d (by simp)
            · intro x hx hxn y hy
              by_cases hxd : x = d
              · subst hxd
                unfold depIds at hy
                rw [hf] at hy
                obtain ⟨dep, hdep, rfl⟩ := List.mem_map.mp hy
                exact hdeps3 dep hdep
              · refine hclose3 x hx ?_ y hy
                intro hxin
                rcases List.mem_append.mp hxin with hx1 | hx2
                · exact hxn hx1
                · rw [List.mem_singleton] at hx2
                  exact hxd hx2

theorem flatMapIds_length (store : List Todo) :
    (store.flatMap (fun t => t.dependsOn.map (fun dep => dep.id))).length =
      (store.map (fun t => t.dependsOn.length)).sum := by
  induction store with
  | nil => simp
  | cons h t ih => simp [ih]

theorem check_complete (store : List Todo) (todoId d : Nat)
    (h : Reach store d todoId) :
    (checkCircularDependency store todoId (checkFuel store) d []).1 = true := by
  by_contra hfalse
  set S := (d :: (store.map (fun t => t.id) ++
    store.flatMap (fun t => t.dependsOn.map (fun dep => dep.id)))).dedup with hSdef
  have hSdep : ∀ t ∈ store, ∀ dep ∈ t.dependsOn, dep.id ∈ S := by
    intro t ht dep hdep
    rw [hSdef, List.mem_dedup]
    refine List.mem_cons.mpr (Or.inr ?_)
    refine List.mem_append.mpr (Or.inr ?_)
    refine List.mem_flatMap.mpr ⟨t, ht, ?_⟩
    exact List.mem_map_of_mem _ hdep
  have hdS : d ∈ S := by
    rw [hSdef, List.mem_dedup]
    exact List.mem_cons_self _ _
  have hSlen : S.length ≤ 1 + store.length + (store.map (fun t => t.dependsOn.length)).sum := by
    have h1 : S.length ≤ (d :: (store.map (fun t => t.id) ++
        store.flatMap (fun t => t.dependsOn.map (fun dep => dep.id)))).length := by
      rw [hSdef]
      exact (List.dedup_sublist _).length_le
    rw [List.length_cons, List.length_append, List.length_map, flatMapIds_length] at h1
    omega
  have hfuel : S.length + 1 ≤ checkFuel store + ([] : List Nat).length := by
    unfold checkFuel
    simp only [List.length_nil]
    omega
  have hc := check_false_closed store todoId S hSdep (checkFuel store) d []
    (by simp) (by simp) hdS (by simp) hfuel
  rcases hc with htrue | ⟨_, _, _, hdmem, htodo, hclose⟩
  · exact hfalse htrue
  · have haux : ∀ a c, Reach store a c → c = todoId →
        a ∈ (checkCircularDependency store todoId (checkFuel store) d []).2 → False := by
      intro a c hr
      induction hr with
      | refl a => intro heq hav; exact htodo (heq ▸ hav)
      | step hb hrest ihr =>
        intro heq hav
        exact ihr heq (hclose _ hav (by simp) _ hb)
    exact haux d todoId h rfl hdmem

theorem runChecks_cons (store : List Todo) (todoId d : Nat) (rest : List Nat) :
    runDependencyChecks store todoId (d :: rest) =
      if todoId = d then some PutResult.selfDependencyError
      else if (checkCircularDependency store todoId (checkFuel store) d []).1 then
        some (PutResult.circularError d)
      else runDependencyChecks store todoId rest := rfl

theorem runDependencyChecks_cycle (store : List Todo) (todoId : Nat) :
    ∀ (proposed : List Nat),
      todoId ∉ proposed →
      (∃ d ∈ proposed, Reach store d todoId) →
      ∃ d ∈ proposed,
        runDependencyChecks store todoId proposed = some (PutResult.circularError d) := by
  intro proposed
  induction proposed with
  | nil =>
    intro _ h
    rcases h with ⟨d, hd, _⟩
    cases hd
  | cons d rest ih =>
    intro hself hcyc
    have hne : todoId ≠ d := fun hEq => hself (by simp [hEq])
    rw [runChecks_cons, if_neg hne]
    by_cases hchk : (checkCircularDependency store todoId (checkFuel store) d []).1 = true
    · rw [if_pos hchk]
      exact ⟨d, by simp, rfl⟩
    · rw [if_neg hchk]
      have hnr : ¬Reach store d todoId := fun hr => hchk (check_complete store todoId d hr)
      have hcyc2 : ∃ e ∈ rest, Reach store e todoId := by
        rcases hcyc with ⟨e, he, hre⟩
        rcases List.mem_cons.mp he with rfl | he2
        · exact absurd hre hnr
        · exact ⟨e, he2, hre⟩
      obtain ⟨e, he, heq⟩ := ih (fun hm => hself (by simp [hm])) hcyc2
      exact ⟨e, by simp [he], heq⟩

theorem runDependencyChecks_self (store : List Todo) (todoId : Nat) :
    ∀ (proposed : List Nat),
      todoId ∈ proposed →
      (∀ d ∈ proposed.takeWhile (fun e => e != todoId), ¬Reach store d todoId) →
      runDependencyChecks store todoId proposed = some PutResult.selfDependencyError := by
  intro proposed
  induction proposed with
  | nil => intro h; cases h
  | cons d rest ih =>
    intro hmem hpre
    rw [runChecks_cons]
    by_cases hEq : todoId = d
    · rw [if_pos hEq]
    · rw [if_neg hEq]
      have hpd : (d != todoId) = true := by
        simp only [bne_iff_ne, ne_eq]
        exact fun h2 => hEq h2.symm
      have htw : (d :: rest).takeWhile (fun e => e != todoId)
          = d :: rest.takeWhile (fun e => e != todoId) := by
        simp [List.takeWhile_cons, hpd]
      have hnr : ¬Reach store d todoId := hpre d (by rw [htw]; simp)
      have hchk : ¬(checkCircularDependency store todoId (checkFuel store) d []).1 = true :=
        fun h2 => hnr (check_sound store todoId _ d [] h2)
      rw [if_neg hchk]
      refine ih ?_ ?_
      · rcases List.mem_cons.mp hmem with rfl | hm
        · exact absurd rfl hEq
        · exact hm
      · intro e he
        exact hpre e (by rw [htw]; simp [he])

theorem PUT_of_checks_some (store : List Todo) (todoId : Nat) (proposed : List Nat)
    (err : PutResult)
    (h : runDependencyChecks store todoId proposed = some err) :
    PUT store todoId proposed = (err, store) := by
  unfold PUT
  rw [h]

theorem POST_created_eq (store : List Todo) (title : String) (dueDate : Option Int)
    (deps : List Nat) (newId : Nat) (createdAt : Int)
    (htitle : blankTitle title = false)
    (hall : deps.all (fun d => (store.find? (fun u => u.id == d)).isSome) = true) :
    POST store title dueDate deps newId createdAt =
      (PostResult.created
          ⟨newId, title, createdAt, dueDate,
            deps.map (fun d =>
              ⟨d, (store.find? (fun u => u.id == d)).bind (fun u => u.dueDate)⟩)⟩,
        store ++
          (⟨newId, title, createdAt, dueDate,
            deps.map (fun d =>
              ⟨d, (store.find? (fun u => u.id == d)).bind (fun u => u.dueDate)⟩)⟩ : Todo)
          :: []) := by
  unfold POST
  rw [if_neg (by simp [htitle]), if_pos hall]

theorem POST_error_eq (store : List Todo) (title : String) (dueDate : Option Int)
    (deps : List Nat) (newId : Nat) (createdAt : Int)
    (htitle : blankTitle title = false)
    (hex : deps.all (fun d => (store.find? (fun u => u.id == d)).isSome) = false) :
    POST store title dueDate deps newId createdAt = (PostResult.createError, store) := by
  unfold POST
  rw [if_neg (by simp [htitle]), if_neg (by simp [hex])]

/-! ## Claim theorems

Each claim of the specification is settled below by one theorem (with a
witness when the theorem has hypotheses, and a counterexample when the claim
as frozen fails on the code). -/

/-- Claim C1 (code_bug): the spec requires, for every task T with dependency
set D, earliestStart(T) = max(createdAt T, max over d in D of (dueDate d if
set, else earliestStart d)). On the chain task 1 (due 5) ← task 2 ← task 3
(all created at time 1) the code computes earliestStart for task 2 as 5 but
for task 3 as 1, although the claim demands max(1, earliestStart(2)) = 5.
The cause is that `calculateTaskInsights` runs `topologicalSort` on the
**reverse** graph (source line 237), so the emitted order processes
dependents before their dependencies and task 3 reads task 2's stale initial
value — contradicting the function's own intent of resolving dependencies
first. This theorem evaluates the embedded code at the failing input. -/
theorem claimC1_earliest_start_failing_eval :
    (calculateTaskInsights
      [⟨1, "x", 1, some 5, []⟩, ⟨2, "y", 1, none, [⟨1, some 5⟩]⟩,
        ⟨3, "z", 1, none, [⟨2, none⟩]⟩]).2 = false ∧
    (calculateTaskInsights
      [⟨1, "x", 1, some 5, []⟩, ⟨2, "y", 1, none, [⟨1, some 5⟩]⟩,
        ⟨3, "z", 1, none, [⟨2, none⟩]⟩]).1 2 = some ⟨5, true⟩ ∧
    (calculateTaskInsights
      [⟨1, "x", 1, some 5, []⟩, ⟨2, "y", 1, none, [⟨1, some 5⟩]⟩,
        ⟨3, "z", 1, none, [⟨2, none⟩]⟩]).1 3 = some ⟨1, false⟩ := by
  decide

/-- Claim C2 (code_bug): the spec says the sort succeeds iff the graph is
acyclic and, on success, every task appears **after** all tasks it depends
on. On the two-task snapshot where task 2 depends on task 1, the pipeline's
sort (which the source runs on the reverse graph, line 237) succeeds but
emits [2, 1]: the dependent task 2 appears **before** its dependency 1, the
opposite of the intended order and of `topologicalSort`'s own comment
("dependencies point to dependents"). This theorem evaluates the embedded
code at the failing input. -/
theorem claimC2_topo_order_failing_eval :
    (topoOf [⟨2, "y", 1, none, [⟨1, none⟩]⟩, ⟨1, "x", 1, none, []⟩]).sortedOrder = [2, 1] ∧
    (topoOf [⟨2, "y", 1, none, [⟨1, none⟩]⟩, ⟨1, "x", 1, none, []⟩]).hasCycle = false := by
  decide

/-- Claim C3 counterexample: on the two-task cycle 1 ⇄ 2, the insight
computation does not surface any concrete cycle members — its result type
carries only the Boolean flag — and it **does** produce an earliest-start
value (the epoch, `new Date(0)`) for every task, contradicting the claim
that a `CycleDetected` condition naming a concrete cycle is surfaced
"rather than producing estimate values". -/
theorem claimC3_counterexample :
    (calculateTaskInsights
      [⟨1, "a", 1, none, [⟨2, none⟩]⟩, ⟨2, "b", 1, none, [⟨1, none⟩]⟩]).2 = true ∧
    (calculateTaskInsights
      [⟨1, "a", 1, none, [⟨2, none⟩]⟩, ⟨2, "b", 1, none, [⟨1, none⟩]⟩]).1 1
      = some ⟨0, false⟩ ∧
    (calculateTaskInsights
      [⟨1, "a", 1, none, [⟨2, none⟩]⟩, ⟨2, "b", 1, none, [⟨1, none⟩]⟩]).1 2
      = some ⟨0, false⟩ := by
  decide

/-- Claim C3 (corrected): whenever the cycle check flags the snapshot, the
schedule calculation does not run; the computation returns early with the
Boolean cycle flag set and **every** task's insight forced to
earliestStart = 0 (the epoch) and isCritical = false. No concrete cycle
members are reported (the result type has no such field). -/
theorem claimC3_cycle_branch (todos : List Todo)
    (h : (topoOf todos).hasCycle = true) :
    calculateTaskInsights todos = (cycleInsights todos, true) ∧
    ∀ t ∈ todos, (calculateTaskInsights todos).1 t.id = some ⟨0, false⟩ := by
  refine ⟨calculateTaskInsights_cycle todos h, ?_⟩
  intro t ht
  rw [calculateTaskInsights_cycle todos h]
  exact cycleInsights_lookup todos t ht

/-- Witness for `claimC3_cycle_branch` at the concrete two-task cycle. -/
theorem claimC3_cycle_branch_witness :
    (topoOf [⟨1, "a", 1, none, [⟨2, none⟩]⟩, ⟨2, "b", 1, none, [⟨1, none⟩]⟩]).hasCycle
      = true ∧
    (calculateTaskInsights [⟨1, "a", 1, none, [⟨2, none⟩]⟩, ⟨2, "b", 1, none, [⟨1, none⟩]⟩]
        = (cycleInsights [⟨1, "a", 1, none, [⟨2, none⟩]⟩, ⟨2, "b", 1, none, [⟨1, none⟩]⟩],
          true) ∧
      ∀ t ∈ [(⟨1, "a", 1, none, [⟨2, none⟩]⟩ : Todo), ⟨2, "b", 1, none, [⟨1, none⟩]⟩],
        (calculateTaskInsights
          [⟨1, "a", 1, none, [⟨2, none⟩]⟩, ⟨2, "b", 1, none, [⟨1, none⟩]⟩]).1 t.id
          = some ⟨0, false⟩) :=
  ⟨by decide, claimC3_cycle_branch _ (by decide)⟩

/-- Claim C7 counterexample: on the one-task snapshot whose only dependency
id 99 does not exist, the Graph Builder does not fail: it returns a total
result in which the edge to 99 was silently dropped (task 1's adjacency list
is empty, 99 is not a node) — there is no `DanglingReference` condition in
its result type at all. -/
theorem claimC7_counterexample :
    (buildDependencyGraph [⟨1, "a", 1, none, [⟨99, none⟩]⟩]).graph 1 = some [] ∧
    (buildDependencyGraph [⟨1, "a", 1, none, [⟨99, none⟩]⟩]).nodes = [1] ∧
    (buildDependencyGraph [⟨1, "a", 1, none, [⟨99, none⟩]⟩]).reverseGraph 99 = none := by
  decide

/-- Claim C7 (corrected): for every snapshot (with distinct ids), the Graph
Builder never fails; a dependency id that is not a node of the snapshot is
silently ignored — each task's forward adjacency list is exactly its
depends-on list filtered to the ids present as nodes. -/
theorem claimC7_dangling_dropped (todos : List Todo)
    (hnd : (todos.map (fun t => t.id)).Nodup) :
    ∀ t ∈ todos, (buildDependencyGraph todos).graph t.id =
      some ((t.dependsOn.map (fun d => d.id)).filter
        (fun d => decide (d ∈ (buildDependencyGraph todos).nodes))) :=
  fun t ht => buildGraph_lookup todos hnd t ht

/-- Witness for `claimC7_dangling_dropped` at the dangling-reference input. -/
theorem claimC7_dangling_dropped_witness :
    ([(⟨1, "a", 1, none, [⟨99, none⟩]⟩ : Todo)].map (fun t => t.id)).Nodup ∧
    ∀ t ∈ [(⟨1, "a", 1, none, [⟨99, none⟩]⟩ : Todo)],
      (buildDependencyGraph [⟨1, "a", 1, none, [⟨99, none⟩]⟩]).graph t.id =
        some ((t.dependsOn.map (fun d => d.id)).filter
          (fun d => decide (d ∈ (buildDependencyGraph [⟨1, "a", 1, none, [⟨99, none⟩]⟩]).nodes))) :=
  ⟨by decide, claimC7_dangling_dropped _ (by decide)⟩

/-- Claim C8 counterexample: on the dependency-free snapshot listed as
[task 2, task 1], both tasks have zero in-degree simultaneously, and the
emitted order is [2, 1] — snapshot insertion order, not ascending task-id
order [1, 2]. -/
theorem claimC8_counterexample :
    (topoOf [⟨2, "b", 1, none, []⟩, ⟨1, "a", 1, none, []⟩]).sortedOrder = [2, 1] ∧
    (topoOf [⟨2, "b", 1, none, []⟩, ⟨1, "a", 1, none, []⟩]).sortedOrder ≠ [1, 2] := by
  decide

/-- Claim C8 (corrected): simultaneous zero in-degree nodes are processed in
snapshot insertion order (the FIFO queue is seeded by iterating the node
set in insertion order), not ascending id order; the result is still
deterministic for a given snapshot list. In particular, for every
dependency-free snapshot with distinct ids the emitted order is exactly the
snapshot's own id order and no cycle is reported. -/
theorem claimC8_insertion_order (todos : List Todo)
    (hnd : (todos.map (fun t => t.id)).Nodup)
    (hdeps : ∀ t ∈ todos, t.dependsOn = []) :
    (topoOf todos).sortedOrder = todos.map (fun t => t.id) ∧
    (topoOf todos).hasCycle = false := by
  have hrg := buildReverse_no_deps todos hdeps
  have hempty : ∀ u, ((buildDependencyGraph todos).reverseGraph u).getD [] = [] := by
    intro u
    rw [hrg, initGraphEntries_lookup]
    by_cases hu : u ∈ todos.map (fun t => t.id) <;> simp [hu]
  unfold topoOf
  rw [topologicalSort_no_edges _ _ hempty]
  exact ⟨buildNodes_eq_of_nodup todos hnd, rfl⟩

/-- Witness for `claimC8_insertion_order` at the two-task snapshot listed in
descending id order. -/
theorem claimC8_insertion_order_witness :
    ([(⟨2, "b", 1, none, []⟩ : Todo), ⟨1, "a", 1, none, []⟩].map (fun t => t.id)).Nodup ∧
    (∀ t ∈ [(⟨2, "b", 1, none, []⟩ : Todo), ⟨1, "a", 1, none, []⟩], t.dependsOn = []) ∧
    ((topoOf [⟨2, "b", 1, none, []⟩, ⟨1, "a", 1, none, []⟩]).sortedOrder
        = [(⟨2, "b", 1, none, []⟩ : Todo), ⟨1, "a", 1, none, []⟩].map (fun t => t.id) ∧
      (topoOf [⟨2, "b", 1, none, []⟩, ⟨1, "a", 1, none, []⟩]).hasCycle = false) :=
  ⟨by decide, by decide, claimC8_insertion_order _ (by decide) (by decide)⟩

/-- Claim C4 counterexample: on two independent tasks both created at time 5,
both hold the global maximum earliestStart 5 — "exactly one task holds the
global maximum" is false — and only the first one in emitted order is marked
critical (the terminal scan replaces its running maximum only on strict
increase from an initial 0). -/
theorem claimC4_counterexample :
    (calculateTaskInsights [⟨1, "a", 5, none, []⟩, ⟨2, "b", 5, none, []⟩]).1 1
      = some ⟨5, true⟩ ∧
    (calculateTaskInsights [⟨1, "a", 5, none, []⟩, ⟨2, "b", 5, none, []⟩]).1 2
      = some ⟨5, false⟩ ∧
    (calculateTaskInsights [⟨1, "a", 5, none, []⟩, ⟨2, "b", 5, none, []⟩]).2 = false := by
  decide

/-- Claim C4 (corrected): the task holding the global maximum earliestStart
need not be unique; the code selects as terminal the **first** task in the
emitted order whose earliestStart strictly exceeds the running maximum
(initialised to 0, which the positive-timestamp hypothesis makes
reachable). The backtracking then marks exactly the visited chain: relative
to the post-schedule insight map, some maximal task tx exists such that the
final map keeps every earliestStart unchanged and marks a task critical
**iff** its id lies on the chain walked from tx by repeatedly following the
dependency of maximal effective completion time. -/
theorem claimC4_critical_chain (todos : List Todo)
    (hne : todos ≠ [])
    (hnd : (todos.map (fun t => t.id)).Nodup)
    (hflag : (topoOf todos).hasCycle = false)
    (hpos : ∀ t ∈ todos, 0 < t.createdAt) :
    ∃ tx ∈ todos,
      (∀ t ∈ todos,
        esOf (scheduleInsights todos) t.id ≤ esOf (scheduleInsights todos) tx.id) ∧
      (∀ t ∈ todos,
        esOf (calculateTaskInsights todos).1 t.id = esOf (scheduleInsights todos) t.id) ∧
      (∀ t ∈ todos,
        critOf (calculateTaskInsights todos).1 t.id = true ↔
          t.id ∈ criticalChain todos (todos.length + 1) (scheduleInsights todos) tx.id) := by
  have hnodes : (buildDependencyGraph todos).nodes = todos.map (fun t => t.id) :=
    buildNodes_eq_of_nodup todos hnd
  have hn2 : (buildDependencyGraph todos).nodes.Nodup := by
    rw [hnodes]; exact hnd
  have hcomp : ∀ y ∈ (buildDependencyGraph todos).nodes, y ∈ (topoOf todos).sortedOrder :=
    topoSort_complete (buildDependencyGraph todos).reverseGraph
      (buildDependencyGraph todos).nodes hn2 hflag
  have hsub : ∀ y ∈ (topoOf todos).sortedOrder, y ∈ (buildDependencyGraph todos).nodes :=
    (topoSort_order_nodup_subset (buildDependencyGraph todos).reverseGraph
      (buildDependencyGraph todos).nodes hn2).2
  have hins := scheduleInsights_inv todos hnd
  have hidmem : ∀ t ∈ todos, t.id ∈ (topoOf todos).sortedOrder := by
    intro t ht
    exact hcomp t.id (by rw [hnodes]; exact List.mem_map_of_mem _ ht)
  have hposm : ∀ y ∈ (topoOf todos).sortedOrder,
      ∃ v, scheduleInsights todos y = some v ∧ 0 < v.earliestStart := by
    intro y hy
    have hyn : y ∈ todos.map (fun t => t.id) := by
      rw [← hnodes]; exact hsub y hy
    obtain ⟨t, ht, hty⟩ := List.mem_map.mp hyn
    obtain ⟨v, hv, _, hle⟩ := hins t ht
    refine ⟨v, ?_, lt_of_lt_of_le (hpos t ht) hle⟩
    rw [← hty]; exact hv
  have hone : (topoOf todos).sortedOrder ≠ [] := by
    obtain ⟨t0, ht0⟩ := List.exists_mem_of_ne_nil todos hne
    intro hemp
    have hmem := hidmem t0 ht0
    rw [hemp] at hmem
    cases hmem
  obtain ⟨x, hxord, v, hvx, hsel1, hsel2, hmax⟩ :=
    selectTerminal_spec todos (scheduleInsights todos) (topoOf todos).sortedOrder hposm hone
  have hxn : x ∈ todos.map (fun t => t.id) := by
    rw [← hnodes]; exact hsub x hxord
  obtain ⟨tx, htx, htxid⟩ := List.mem_map.mp hxn
  have hfind : todos.find? (fun u => u.id == x) = some tx := by
    rw [← htxid]
    exact find_by_id_eq todos hnd tx htx
  have hsel2' :
      (selectTerminal todos (scheduleInsights todos) (topoOf todos).sortedOrder).2
        = some tx := by
    rw [hsel2, hfind]
  have hcalc : (calculateTaskInsights todos).1 =
      backtrackMark todos (todos.length + 1) (scheduleInsights todos) tx.id := by
    rw [calculateTaskInsights_acyclic todos hflag, hsel2']
  refine ⟨tx, htx, ?_, ?_, ?_⟩
  · intro t ht
    obtain ⟨vt, hvt, _, _⟩ := hins t ht
    have h1 : esOf (scheduleInsights todos) t.id = vt.earliestStart := by
      unfold esOf; rw [hvt]
    have h2 : esOf (scheduleInsights todos) tx.id = v.earliestStart := by
      unfold esOf; rw [htxid, hvx]
    rw [h1, h2]
    exact hmax t.id (hidmem t ht) vt hvt
  · intro t ht
    rw [hcalc]
    unfold esOf
    rw [backtrackMark_lookup]
    cases hm : scheduleInsights todos t.id <;> simp [hm]
  · intro t ht
    obtain ⟨vt, hvt, hcritf, _⟩ := hins t ht
    rw [hcalc]
    unfold critOf
    rw [backtrackMark_lookup, hvt]
    simp [hcritf]

/-- Witness for `claimC4_critical_chain` at a two-task chain (task 2 depends
on task 1). -/
theorem claimC4_critical_chain_witness :
    ([(⟨1, "a", 1, none, []⟩ : Todo), ⟨2, "b", 2, none, [⟨1, none⟩]⟩] ≠ []) ∧
    (([(⟨1, "a", 1, none, []⟩ : Todo), ⟨2, "b", 2, none, [⟨1, none⟩]⟩].map
        (fun t => t.id)).Nodup) ∧
    ((topoOf [⟨1, "a", 1, none, []⟩, ⟨2, "b", 2, none, [⟨1, none⟩]⟩]).hasCycle = false) ∧
    (∀ t ∈ [(⟨1, "a", 1, none, []⟩ : Todo), ⟨2, "b", 2, none, [⟨1, none⟩]⟩],
      0 < t.createdAt) ∧
    ∃ tx ∈ [(⟨1, "a", 1, none, []⟩ : Todo), ⟨2, "b", 2, none, [⟨1, none⟩]⟩],
      (∀ t ∈ [(⟨1, "a", 1, none, []⟩ : Todo), ⟨2, "b", 2, none, [⟨1, none⟩]⟩],
        esOf (scheduleInsights [⟨1, "a", 1, none, []⟩, ⟨2, "b", 2, none, [⟨1, none⟩]⟩]) t.id
          ≤ esOf (scheduleInsights [⟨1, "a", 1, none, []⟩, ⟨2, "b", 2, none, [⟨1, none⟩]⟩]) tx.id) ∧
      (∀ t ∈ [(⟨1, "a", 1, none, []⟩ : Todo), ⟨2, "b", 2, none, [⟨1, none⟩]⟩],
        esOf (calculateTaskInsights [⟨1, "a", 1, none, []⟩, ⟨2, "b", 2, none, [⟨1, none⟩]⟩]).1 t.id
          = esOf (scheduleInsights [⟨1, "a", 1, none, []⟩, ⟨2, "b", 2, none, [⟨1, none⟩]⟩]) t.id) ∧
      (∀ t ∈ [(⟨1, "a", 1, none, []⟩ : Todo), ⟨2, "b", 2, none, [⟨1, none⟩]⟩],
        critOf (calculateTaskInsights [⟨1, "a", 1, none, []⟩, ⟨2, "b", 2, none, [⟨1, none⟩]⟩]).1 t.id
            = true ↔
          t.id ∈ criticalChain [⟨1, "a", 1, none, []⟩, ⟨2, "b", 2, none, [⟨1, none⟩]⟩]
            ([(⟨1, "a", 1, none, []⟩ : Todo), ⟨2, "b", 2, none, [⟨1, none⟩]⟩].length + 1)
            (scheduleInsights [⟨1, "a", 1, none, []⟩, ⟨2, "b", 2, none, [⟨1, none⟩]⟩]) tx.id) :=
  ⟨by decide, by decide, by decide, by decide,
    claimC4_critical_chain _ (by decide) (by decide) (by decide) (by decide)⟩

/-- Claim C5 (confirmed): the PUT route runs the circular-dependency detector
over the hypothetical post-edit graph before committing: whenever some
proposed dependency id can already reach the edited task along stored
depends-on edges (so the proposed edge set would close a cycle) and the
request is not a direct self-dependency, the route answers with the
circular-dependency error for one of the proposed ids and the stored
snapshot is left completely unchanged — no partial commit. -/
theorem claimC5_put_rejects_cycle (store : List Todo) (todoId : Nat)
    (proposed : List Nat)
    (hself : todoId ∉ proposed)
    (hcyc : ∃ d ∈ proposed, Reach store d todoId) :
    ∃ d ∈ proposed, PUT store todoId proposed = (PutResult.circularError d, store) := by
  obtain ⟨d, hd, heq⟩ := runDependencyChecks_cycle store todoId proposed hself hcyc
  exact ⟨d, hd, PUT_of_checks_some store todoId proposed _ heq⟩

/-- Witness for `claimC5_put_rejects_cycle`: task 2 already depends on task
1, and the request proposes to make task 1 depend on task 2. -/
theorem claimC5_put_rejects_cycle_witness :
    ((1 : Nat) ∉ [2]) ∧
    (∃ d ∈ [2], Reach [(⟨2, "t2", 1, none, [⟨1, none⟩]⟩ : Todo)] d 1) ∧
    ∃ d ∈ [2], PUT [(⟨2, "t2", 1, none, [⟨1, none⟩]⟩ : Todo)] 1 [2]
      = (PutResult.circularError d, [⟨2, "t2", 1, none, [⟨1, none⟩]⟩]) :=
  ⟨by decide,
    ⟨2, by decide, Reach.step (by decide) (Reach.refl 1)⟩,
    claimC5_put_rejects_cycle [⟨2, "t2", 1, none, [⟨1, none⟩]⟩] 1 [2] (by decide)
      ⟨2, by decide, Reach.step (by decide) (Reach.refl 1)⟩⟩

/-- Claim C6 counterexample: the snapshot stores task 2 depending on task 1,
and the request proposes dependencies [2, 1] for task 1. The proposed set
contains the task's own id, yet the route answers with the **circular**
dependency error for id 2, not the self-dependency error: the per-id loop
runs the graph traversal for id 2 before ever reaching the self-check on
id 1, so self-dependency is not rejected before the graph algorithm runs. -/
theorem claimC6_counterexample :
    ((1 : Nat) ∈ [2, 1]) ∧
    (PUT [⟨1, "a", 1, none, []⟩, ⟨2, "b", 1, none, [⟨1, none⟩]⟩] 1 [2, 1]).1
      = PutResult.circularError 2 ∧
    (PUT [⟨1, "a", 1, none, []⟩, ⟨2, "b", 1, none, [⟨1, none⟩]⟩] 1 [2, 1]).1
      ≠ PutResult.selfDependencyError := by
  decide

/-- Claim C6 (corrected): the self-check is interleaved per proposed id, not
performed up front: the route answers with the self-dependency error (and
commits nothing) when the task's own id occurs among the proposed ids **and**
no earlier proposed id already closes a cycle (no id strictly before the
first occurrence of the task's own id reaches the task along stored
depends-on edges). -/
theorem claimC6_self_dependency (store : List Todo) (todoId : Nat)
    (proposed : List Nat)
    (hmem : todoId ∈ proposed)
    (hpre : ∀ d ∈ proposed.takeWhile (fun e => e != todoId), ¬Reach store d todoId) :
    PUT store todoId proposed = (PutResult.selfDependencyError, store) :=
  PUT_of_checks_some store todoId proposed PutResult.selfDependencyError
    (runDependencyChecks_self store todoId proposed hmem hpre)

theorem reach_nil_eq (a b : Nat) (h : Reach ([] : List Todo) a b) : a = b := by
  cases h with
  | refl => rfl
  | step hb h => simp [depIds] at hb

/-- Witness for `claimC6_self_dependency` on the empty store with proposed
ids [2, 1] for task 1. -/
theorem claimC6_self_dependency_witness :
    ((1 : Nat) ∈ [2, 1]) ∧
    (∀ d ∈ [2, 1].takeWhile (fun e => e != 1), ¬Reach ([] : List Todo) d 1) ∧
    PUT ([] : List Todo) 1 [2, 1] = (PutResult.selfDependencyError, ([] : List Todo)) :=
  ⟨by decide,
    by
      intro d hd hr
      rw [reach_nil_eq d 1 hr] at hd
      exact absurd hd (by decide),
    claimC6_self_dependency [] 1 [2, 1] (by decide)
      (by
        intro d hd hr
        rw [reach_nil_eq d 1 hr] at hd
        exact absurd hd (by decide))⟩

/-- Claim C9 counterexample: tasks 1 and 2 (independent, created at 5) are
both dependencies of task 3 and tie on effective completion time 5. The
backtracking marks task 2 — the **last** examined dependency — critical and
leaves task 1 non-critical, contradicting selection of the ascending
(smallest) id. -/
theorem claimC9_counterexample :
    (calculateTaskInsights
      [⟨1, "a", 5, none, []⟩, ⟨2, "b", 5, none, []⟩,
        ⟨3, "c", 5, none, [⟨1, none⟩, ⟨2, none⟩]⟩]).1 1 = some ⟨5, false⟩ ∧
    (calculateTaskInsights
      [⟨1, "a", 5, none, []⟩, ⟨2, "b", 5, none, []⟩,
        ⟨3, "c", 5, none, [⟨1, none⟩, ⟨2, none⟩]⟩]).1 2 = some ⟨5, true⟩ ∧
    (calculateTaskInsights
      [⟨1, "a", 5, none, []⟩, ⟨2, "b", 5, none, []⟩,
        ⟨3, "c", 5, none, [⟨1, none⟩, ⟨2, none⟩]⟩]).1 3 = some ⟨5, true⟩ := by
  decide

/-- Claim C9 (corrected): the next-dependency selection updates its running
maximum on `>=`, so among the dependencies attaining the maximal effective
completion time the **last one in depends-on list order** is selected (not
the one with the smallest id): the selected id is the one of the last
dependency whose effective completion equals the selected maximum, and that
maximum dominates every dependency. -/
theorem claimC9_last_examined_tie (m : Nat → Option Insight) (deps : List DepRef)
    (hne : deps ≠ [])
    (hb : ∀ d ∈ deps, -1 ≤ effectiveCompletion m d) :
    ∃ dstar : DepRef,
      (deps.filter (fun d => effectiveCompletion m d == (selectNextDep m deps).1)).getLast?
          = some dstar ∧
      (selectNextDep m deps).2 = some dstar.id ∧
      ∀ d ∈ deps, effectiveCompletion m d ≤ (selectNextDep m deps).1 := by
  rcases selectNextDep_go m deps (-1, none) with ⟨hall, _⟩ | ⟨dstar, h1, h2, _, h4⟩
  · exfalso
    obtain ⟨d0, hd0⟩ := List.exists_mem_of_ne_nil deps hne
    have h5 : effectiveCompletion m d0 < (-1 : Int) := hall d0 hd0
    have h6 := hb d0 hd0
    omega
  · exact ⟨dstar, h1, h2, h4⟩

/-- Witness for `claimC9_last_examined_tie` on two dependencies tying at
effective completion 0 under the empty insight map. -/
theorem claimC9_last_examined_tie_witness :
    ([(⟨1, none⟩ : DepRef), ⟨2, none⟩] ≠ []) ∧
    (∀ d ∈ [(⟨1, none⟩ : DepRef), ⟨2, none⟩],
      -1 ≤ effectiveCompletion (fun _ => none) d) ∧
    ∃ dstar : DepRef,
      ([(⟨1, none⟩ : DepRef), ⟨2, none⟩].filter (fun d =>
          effectiveCompletion (fun _ => none) d
            == (selectNextDep (fun _ => none) [⟨1, none⟩, ⟨2, none⟩]).1)).getLast?
        = some dstar ∧
      (selectNextDep (fun _ => none) [⟨1, none⟩, ⟨2, none⟩]).2 = some dstar.id ∧
      ∀ d ∈ [(⟨1, none⟩ : DepRef), ⟨2, none⟩],
        effectiveCompletion (fun _ => none) d
          ≤ (selectNextDep (fun _ => none) [⟨1, none⟩, ⟨2, none⟩]).1 :=
  ⟨by decide, by decide,
    claimC9_last_examined_tie (fun _ => none) [⟨1, none⟩, ⟨2, none⟩] (by decide) (by decide)⟩

/-- Claim C10 (confirmed): the POST route performs no dependency validation
at all (the source defers even the circular check): with a well-formed title
and a non-empty proposed dependency list, if every listed id exists in the
store the todo is created with exactly those dependency ids connected —
no self-dependency, cycle or dangling check intervenes — and if some listed
id is absent the response is only the generic creation error (Prisma's
connect failure caught by the catch-all), never a dedicated
dangling-reference condition (no such variant exists in the route's
responses). -/
theorem claimC10_post_skips_validation (store : List Todo) (title : String)
    (dueDate : Option Int) (dependsOnIds : List Nat) (newId : Nat) (createdAt : Int)
    (htitle : blankTitle title = false)
    (hne : dependsOnIds ≠ []) :
    ((∀ d ∈ dependsOnIds, ∃ u ∈ store, u.id = d) →
      ∃ t : Todo,
        POST store title dueDate dependsOnIds newId createdAt
            = (PostResult.created t, store ++ t :: []) ∧
          t.dependsOn.map (fun d => d.id) = dependsOnIds) ∧
    ((∃ d ∈ dependsOnIds, ∀ u ∈ store, u.id ≠ d) →
      POST store title dueDate dependsOnIds newId createdAt
        = (PostResult.createError, store)) := by
  constructor
  · intro hall
    have hall2 : dependsOnIds.all
        (fun d => (store.find? (fun u => u.id == d)).isSome) = true := by
      rw [List.all_eq_true]
      intro d hd
      cases hfind : store.find? (fun u => u.id == d) with
      | none =>
        rw [List.find?_eq_none] at hfind
        obtain ⟨u, hu, huid⟩ := hall d hd
        exact absurd (by simp [huid]) (hfind u hu)
      | some u => rfl
    refine ⟨_, POST_created_eq store title dueDate dependsOnIds newId createdAt htitle hall2, ?_⟩
    have hmm : ∀ (l : List Nat),
        (l.map (fun d =>
          (⟨d, (store.find? (fun u => u.id == d)).bind (fun u => u.dueDate)⟩ : DepRef))).map
            (fun d => d.id) = l := by
      intro l
      induction l with
      | nil => rfl
      | cons a rest ih => simp [ih]
    exact hmm dependsOnIds
  · intro hex
    obtain ⟨d, hd, habs⟩ := hex
    have hnone : store.find? (fun u => u.id == d) = none := by
      rw [List.find?_eq_none]
      intro u hu
      simpa using habs u hu
    have hfalse : dependsOnIds.all
        (fun e => (store.find? (fun u => u.id == e)).isSome) = false := by
      rw [Bool.eq_false_iff]
      intro htrue
      rw [List.all_eq_true] at htrue
      have hcontra := htrue d hd
      rw [hnone] at hcontra
      simp at hcontra
    exact POST_error_eq store title dueDate dependsOnIds newId createdAt htitle hfalse

/-- Witness for `claimC10_post_skips_validation` on a one-task store with the
single proposed dependency id 1. -/
theorem claimC10_post_skips_validation_witness :
    blankTitle ("b") = false ∧
    (([1] : List Nat) ≠ []) ∧
    (((∀ d ∈ ([1] : List Nat), ∃ u ∈ [(⟨1, "a", 1, none, []⟩ : Todo)], u.id = d) →
        ∃ t : Todo,
          POST [⟨1, "a", 1, none, []⟩] ("b") none [1] 2 1
              = (PostResult.created t, [⟨1, "a", 1, none, []⟩] ++ t :: []) ∧
            t.dependsOn.map (fun d => d.id) = [1]) ∧
      ((∃ d ∈ ([1] : List Nat), ∀ u ∈ [(⟨1, "a", 1, none, []⟩ : Todo)], u.id ≠ d) →
        POST [⟨1, "a", 1, none, []⟩] ("b") none [1] 2 1
          = (PostResult.createError, [⟨1, "a", 1, none, []⟩]))) :=
  ⟨by decide, by decide,
    claimC10_post_skips_validation [⟨1, "a", 1, none, []⟩] ("b") none [1] 2 1
      (by decide) (by decide)⟩
